import Mathlib

/-!
The parser of go-rosbot-collector: data model, filter, query builder, field parsers.

A shallow embedding of `parser.go` and `slice.go`.  Go strings are Lean strings; the three
string-backed enumerations (`Destination`, `Rarity`, `Quality`) stay strings, because a caller can
put any string value in a `ParserConfig` and the code's `switch`/`default` arms decide what then
happens.  A run-time panic is an explicit outcome (`none`, or `WorkerStep.panicked`).
-/

namespace Rosbotcollector

/-! ## Data model (`parser.go`, lines 308-368) -/

/-- Go `type Destination string`: where the bot placed the item. -/
abbrev Destination := String

abbrev DestinationStashed : Destination := "STASHED"
abbrev DestinationSalvaged : Destination := "SALVAGED"
abbrev DestinationSold : Destination := "SOLD"
abbrev DestinationUnknown : Destination := "UNKNOWN"

/-- Go `type Rarity string`. -/
abbrev Rarity := String

abbrev RarityPrimal : Rarity := "PRIMAL"
abbrev RarityAncient : Rarity := "ANCIENT"
abbrev RarityNonAncient : Rarity := "NON-ANCIENT"

/-- Go `type Quality string`. -/
abbrev Quality := String

abbrev QualityAll : Quality := "*"
abbrev QualityNormal : Quality := "NORMAL"
abbrev QualitySet : Quality := "SET"

/-- Go `LegendaryItem`. -/
structure LegendaryItem where
  Name : String
  Quality : Quality
  Rarity : Rarity
  Destination : Destination
  IsIdentified : Bool
  Stats : String
  deriving DecidableEq, Repr

/-- Go `ParserConfig`.  `Page` is an `int8` in the source; it is only printed, never computed
with, so it is an integer here. -/
structure ParserConfig where
  Destinations : List Destination
  RarityLevel : Rarity
  Quality : Quality
  Page : Int
  deriving DecidableEq, Repr

/-- Go `NewParseConfig`: the default configuration. -/
def NewParseConfig : ParserConfig :=
  { Destinations := [], RarityLevel := RarityNonAncient, Quality := QualityAll, Page := 1 }

/-! ## `slice.go` -/

/-- Go `contains`: linear search, returning at the first equal element. -/
def contains : List Destination → Destination → Bool
  | [], _ => false
  | x :: s, e => if x == e then true else contains s e

/-- Go `filter`: walk `s` in order, appending to `items` every element that satisfies
`condition`. -/
def filter (s : List LegendaryItem) (condition : LegendaryItem → Bool) : List LegendaryItem :=
  s.foldl (fun items e => if condition e then items ++ [e] else items) []

/-- The closure `filterItems` hands to `filter`: three early returns, then `true`. -/
def filterItems.condition (config : ParserConfig) (item : LegendaryItem) : Bool :=
  if (config.RarityLevel == RarityAncient && item.Rarity == RarityNonAncient) ||
      (config.RarityLevel == RarityPrimal && item.Rarity != RarityPrimal) then
    false
  else if config.Quality != QualityAll && item.Quality != config.Quality then
    false
  else if config.Destinations.length != 0 then
    contains config.Destinations item.Destination
  else
    true

/-- Go `filterItems`. -/
def filterItems (legendaries : List LegendaryItem) (config : ParserConfig) : List LegendaryItem :=
  filter legendaries (filterItems.condition config)

/-! ## `assignSearchParams` (`parser.go`, lines 259-306) -/

/-- The local variable `destination` of `assignSearchParams` when the function formats its
result.  With exactly one destination the `switch` has no `default` arm, so a value other than
the three listed leaves the variable at its zero value, the empty string. -/
def assignSearchParams.destination (config : ParserConfig) : String :=
  match config.Destinations with
  | [d] =>
    if d == DestinationStashed then "1"
    else if d == DestinationSalvaged then "2"
    else if d == DestinationSold then "4"
    else ""
  | _ => "All"

/-- The local variable `rarity` of `assignSearchParams`: the `RarityPrimal` arm is empty and Go
does not fall through, so the variable stays empty there. -/
def assignSearchParams.rarity (config : ParserConfig) : String :=
  if config.RarityLevel == RarityPrimal then ""
  else if config.RarityLevel == RarityAncient then "1"
  else "0"

/-- The local variable `quality` of `assignSearchParams`. -/
def assignSearchParams.quality (config : ParserConfig) : String :=
  if config.Quality == QualityNormal then "3"
  else if config.Quality == QualitySet then "4"
  else "All"

/-- Go `assignSearchParams`: `fmt.Sprintf` with three `%s` verbs and one `%d`. -/
def assignSearchParams (config : ParserConfig) : String :=
  "/?item_destination=" ++ assignSearchParams.destination config ++
    "&ancient=" ++ assignSearchParams.rarity config ++
    "&item_quality=" ++ assignSearchParams.quality config ++
    "&page=" ++ toString config.Page

/-! ## Go library functions the parser calls

The text functions work on the list of characters of a string.  Every character the patterns
and literals below name is ASCII, so a character of the list stands for one byte wherever the
library code indexes bytes. -/

/-- Go `unicode.IsSpace`: the characters `strings.TrimSpace` trims. -/
def unicode.IsSpace (c : Char) : Bool :=
  let n := c.toNat
  (9 ≤ n && n ≤ 13) || n == 32 || n == 0x85 || n == 0xA0 || n == 0x1680 ||
    (0x2000 ≤ n && n ≤ 0x200A) || n == 0x2028 || n == 0x2029 || n == 0x202F ||
    n == 0x205F || n == 0x3000

/-- Go `unicode.ToLower` as far as the parser can observe it: `A`-`Z` go to `a`-`z`, and the two
characters outside ASCII whose lower case is an ASCII letter (U+0130 and the Kelvin sign
U+212A) go to `i` and `k`.  Every other character that Unicode lower-cases goes to a character
outside ASCII; it is left unchanged here, and either way differs from each character of the
ASCII literals the parser compares the result with. -/
def unicode.ToLower (c : Char) : Char :=
  let n := c.toNat
  if 65 ≤ n && n ≤ 90 then Char.ofNat (n + 32)
  else if n == 0x130 then 'i'
  else if n == 0x212A then 'k'
  else c

/-- Go `strings.ToLower`: `unicode.ToLower` on every character. -/
def strings.ToLower (s : List Char) : List Char :=
  s.map unicode.ToLower

/-- Go `strings.TrimSpace`: drop the white space at both ends. -/
def strings.TrimSpace (s : List Char) : List Char :=
  ((s.dropWhile unicode.IsSpace).reverse.dropWhile unicode.IsSpace).reverse

/-- Go `strings.ReplaceAll s old ""` for a non-empty `old`: scanning from the left, every
occurrence of `old` that does not overlap an earlier one is removed.  `skip` counts the
characters of the occurrence just found that are still to be passed over. -/
def strings.removeAll (old : List Char) : List Char → Nat → List Char
  | [], _ => []
  | _ :: cs, skip + 1 => strings.removeAll old cs skip
  | c :: cs, 0 =>
    if old.isPrefixOf (c :: cs) then strings.removeAll old cs (old.length - 1)
    else c :: strings.removeAll old cs 0

/-- Go `strings.ReplaceAll(s, old, "")`. -/
def strings.ReplaceAll (s old : List Char) : List Char :=
  strings.removeAll old s 0

/-- The loop of Go `strings.Split` for a non-empty separator: `cur` holds, reversed, the piece
being read, `skip` the characters of the separator just found that are still to be passed
over. -/
def strings.splitLoop (sep : List Char) : List Char → Nat → List Char → List (List Char)
  | [], _, cur => [cur.reverse]
  | _ :: cs, skip + 1, cur => strings.splitLoop sep cs skip cur
  | c :: cs, 0, cur =>
    if sep.isPrefixOf (c :: cs) then cur.reverse :: strings.splitLoop sep cs (sep.length - 1) []
    else strings.splitLoop sep cs 0 (c :: cur)

/-- Go `strings.Split(s, sep)` for a non-empty `sep`: the pieces between the occurrences of
`sep`, found from the left without overlap; a single piece, `s` itself, when there is none. -/
def strings.Split (s sep : List Char) : List (List Char) :=
  strings.splitLoop sep s 0 []

/-- Go `strings.Join(a, sep)`. -/
def strings.Join (a : List (List Char)) (sep : List Char) : List Char :=
  sep.intercalate a

/-- The regular-expression class `\d`: an ASCII digit. -/
def reDigit (c : Char) : Bool :=
  48 ≤ c.toNat && c.toNat ≤ 57

/-- The regular-expression class `\s` of Go's `regexp`: tab, line feed, form feed, carriage
return, space. -/
def reSpace (c : Char) : Bool :=
  c == '\t' || c == '\n' || c.toNat == 12 || c == '\r' || c == ' '

/-- The regular-expression class `[a-zA-Z]`. -/
def reLetter (c : Char) : Bool :=
  (97 ≤ c.toNat && c.toNat ≤ 122) || (65 ≤ c.toNat && c.toNat ≤ 90)

/-- Whether the text starts with one character of each class, in order. -/
def matchClasses : List (Char → Bool) → List Char → Bool
  | [], _ => true
  | _ :: _, [] => false
  | p :: ps, c :: cs => p c && matchClasses ps cs

/-! ## Timestamps (`parser.go`, lines 168-179) -/

/-- Go `time.Time` in UTC, by its calendar fields.  The parser builds such a value only through
`time.Parse` with a layout that has no zone and no seconds. -/
structure Time where
  year : Nat
  month : Nat
  day : Nat
  hour : Nat
  minute : Nat
  second : Nat
  deriving DecidableEq, Repr

/-- Go's zero `time.Time`: January 1, year 1, 00:00:00 UTC. -/
def Time.zero : Time :=
  { year := 1, month := 1, day := 1, hour := 0, minute := 0, second := 0 }

/-- Go `isLeap`. -/
def time.isLeap (year : Nat) : Bool :=
  year % 4 == 0 && (year % 100 != 0 || year % 400 == 0)

/-- Go `daysIn`: the number of days of a month (1 to 12) of a year. -/
def time.daysIn (month year : Nat) : Nat :=
  if month == 2 && time.isLeap year then 29
  else
    match month with
    | 1 => 31 | 2 => 28 | 3 => 31 | 4 => 30 | 5 => 31 | 6 => 30
    | 7 => 31 | 8 => 31 | 9 => 30 | 10 => 31 | 11 => 30 | 12 => 31
    | _ => 0

/-- Days of a non-leap year before the first of a month (1 to 12): Go's `daysBefore` table. -/
def time.daysBefore : Nat → Nat
  | 0 => 0
  | m + 1 => time.daysBefore m + time.daysIn m 1

/-- The instant of a UTC time, in seconds since January 1, year 1, 00:00:00 UTC, computed as Go's
`Date` does: days before the year, before the month, before the day, then the time of day. -/
def Time.abs (t : Time) : Int :=
  let y : Int := (t.year : Int) - 1
  let days : Int := 365 * y + y / 4 - y / 100 + y / 400 +
    (time.daysBefore t.month : Int) +
    (if time.isLeap t.year && 3 ≤ t.month then 1 else 0) + ((t.day : Int) - 1)
  days * 86400 + (t.hour : Int) * 3600 + (t.minute : Int) * 60 + (t.second : Int)

/-- Go `Time.Before`: whether the instant of `t` is before the instant of `u`. -/
def Time.Before (t u : Time) : Bool :=
  t.abs < u.abs

/-- The value of an ASCII digit. -/
def time.digitVal (c : Char) : Nat :=
  c.toNat - 48

/-- Go `getnum`: one or two digits at the start of the text (exactly two when `fixed`), and the
rest. -/
def time.getnum (s : List Char) (fixed : Bool) : Option (Nat × List Char) :=
  match s with
  | [] => none
  | c0 :: rest =>
    if !reDigit c0 then none
    else
      match rest with
      | c1 :: rest2 =>
        if reDigit c1 then some (time.digitVal c0 * 10 + time.digitVal c1, rest2)
        else if fixed then none
        else some (time.digitVal c0, rest)
      | [] => if fixed then none else some (time.digitVal c0, rest)

/-- Go `skip(value, prefix)` for a one-character prefix other than a space. -/
def time.skipChar (c : Char) (value : List Char) : Option (List Char) :=
  match value with
  | [] => none
  | v :: rest => if v == c then some rest else none

/-- Go `skip(value, " ")`: an error when the text starts with something other than a space,
else the text without its leading spaces (`cutspace`). -/
def time.skipSpace (value : List Char) : Option (List Char) :=
  match value with
  | [] => some []
  | v :: rest => if v == ' ' then some ((v :: rest).dropWhile (· == ' ')) else none

/-- The `2006` field of Go `time.Parse`: four characters, all digits (`atoi` rejects
anything else). -/
def time.longYear (value : List Char) : Option (Nat × List Char) :=
  match value with
  | a :: b :: c :: d :: rest =>
    if reDigit a && reDigit b && reDigit c && reDigit d then
      some (((time.digitVal a * 10 + time.digitVal b) * 10 + time.digitVal c) * 10
        + time.digitVal d, rest)
    else none
  | _ => none

/-- Go `time.Parse("02/01/2006 15:04", value)`: `none` stands for a returned error, in which
case the returned time is the zero time.  The fields are read in the order of the layout; month,
hour and minute are range-checked when read, the day against the month and year at the end, and
text left over is an error. -/
def time.Parse (value : List Char) : Option Time := do
  let (day, value) ← time.getnum value true
  let value ← time.skipChar '/' value
  let (month, value) ← time.getnum value true
  guard (¬ (month = 0 ∨ 12 < month))
  let value ← time.skipChar '/' value
  let (year, value) ← time.longYear value
  let value ← time.skipSpace value
  let (hour, value) ← time.getnum value false
  guard (¬ 24 ≤ hour)
  let value ← time.skipChar ':' value
  let (min, value) ← time.getnum value true
  guard (¬ 60 ≤ min)
  guard (value = [])
  guard (¬ (day < 1 ∨ time.daysIn month year < day))
  pure { year := year, month := month, day := day, hour := hour, minute := min, second := 0 }

/-- The pattern `\d{2}/\d{2}/\d{4}\s-\s\d{2}:\d{2}` of `timestampRegex`, one class per
character: it matches exactly 18 characters. -/
def timestampRegex : List (Char → Bool) :=
  [reDigit, reDigit, (· == '/'), reDigit, reDigit, (· == '/'),
    reDigit, reDigit, reDigit, reDigit, reSpace, (· == '-'), reSpace,
    reDigit, reDigit, (· == ':'), reDigit, reDigit]

/-- Go `timestampRegex.FindString`: the leftmost match, or the empty string when there is
none. -/
def timestampRegex.FindString : List Char → List Char
  | [] => []
  | c :: cs =>
    if matchClasses timestampRegex (c :: cs) then (c :: cs).take 18
    else timestampRegex.FindString cs

/-- Go `parseTimestamp`: the error of `time.Parse` is dropped and the time it returns with an
error is the zero time. -/
def parseTimestamp (raw : String) : Time :=
  let parsed := timestampRegex.FindString (strings.TrimSpace raw.data)
  let parsed := strings.ReplaceAll parsed [' ', '-']
  match time.Parse parsed with
  | some t => t
  | none => Time.zero

/-! ## Item fields (`parser.go`, lines 181-257) -/

/-- A match of `destinationRegex`, the pattern `:\s([a-zA-Z]+)`, at the start of the text: the
whole match and the group.  The group is greedy: it takes the longest run of letters. -/
def destinationRegex.matchAt : List Char → Option (List (List Char))
  | c :: w :: l :: rest =>
    if c == ':' && reSpace w && reLetter l then
      some [c :: w :: (l :: rest).takeWhile reLetter, (l :: rest).takeWhile reLetter]
    else none
  | _ => none

/-- Go `destinationRegex.FindStringSubmatch`: the leftmost match with its group, `none` for the
nil slice that the library returns when nothing matches. -/
def destinationRegex.FindStringSubmatch : List Char → Option (List (List Char))
  | [] => none
  | c :: cs =>
    match destinationRegex.matchAt (c :: cs) with
    | some m => some m
    | none => destinationRegex.FindStringSubmatch cs

/-- Go `parseDestination`.  `none` stands for the run-time panic of indexing element 1 of the
nil slice, which is what happens when the pattern matches nowhere. -/
def parseDestination (raw : String) : Option Destination :=
  match destinationRegex.FindStringSubmatch raw.data with
  | none => none
  | some m =>
    match m.get? 1 with
    | none => none
    | some word =>
      let lowered := String.mk (strings.ToLower word)
      if lowered == "salvaged" then some DestinationSalvaged
      else if lowered == "stashed" then some DestinationStashed
      else if lowered == "sold" then some DestinationSold
      else some DestinationUnknown

/-- Go `whiteSpaceRegex.ReplaceAllString(line, "")` for the pattern `^ *`: the only match is at
the start of the text, the spaces there. -/
def whiteSpaceRegex.ReplaceAllString (line : List Char) : List Char :=
  line.dropWhile (· == ' ')

/-- Go `parseItemStats`. -/
def parseItemStats (raw : String) : String :=
  let result := strings.ReplaceAll raw.data
    "This item cannot be equipped until it is identified.".data
  let result := strings.ReplaceAll result "<br />".data
  let s := strings.Split result ['\n']
  let s := s.map whiteSpaceRegex.ReplaceAllString
  String.mk (strings.Join s ['\n'])

/-- Go `parseItemName`.  `none` stands for the run-time panic of indexing element 1 of a
one-element slice, which is what happens when the rarity is not `RarityNonAncient` and the text
has no `"] "`. -/
def parseItemName (raw : String) (rarity : Rarity) : Option String :=
  if rarity != RarityNonAncient then
    match (strings.Split raw.data [']', ' ']).get? 1 with
    | some name => some (String.mk name)
    | none => none
  else some raw

/-- A match of `rarityRegex`, the pattern `\[[a-zA-Z]+]`, at the start of the text: an opening
bracket, the longest run of letters, which must not be empty, and a closing bracket right after
it. -/
def rarityRegex.matchAt : List Char → Option (List Char)
  | [] => none
  | c :: rest =>
    let word := rest.takeWhile reLetter
    if c == '[' && !word.isEmpty && (rest.dropWhile reLetter).head? == some ']' then
      some (c :: word ++ [']'])
    else none

/-- Go `rarityRegex.FindString`: the leftmost match, or the empty string. -/
def rarityRegex.FindString : List Char → List Char
  | [] => []
  | c :: cs =>
    match rarityRegex.matchAt (c :: cs) with
    | some m => m
    | none => rarityRegex.FindString cs

/-- Go `parseItemRarity`. -/
def parseItemRarity (raw : String) : Rarity :=
  let lowered := String.mk (strings.ToLower (rarityRegex.FindString raw.data))
  if lowered == "[ancient]" then RarityAncient
  else if lowered == "[primal]" then RarityPrimal
  else RarityNonAncient

/-- Go `parseItemQuality`. -/
def parseItemQuality (raw : String) : Quality :=
  let lowered := String.mk (strings.ToLower raw.data)
  if lowered == "text-legendary" then QualityNormal
  else if lowered == "text-set" then QualitySet
  else ""

/-! ## The item worker (`parser.go`, lines 104-166) -/

/-- What the worker reads from one job `j` (a `p.m-b-xs` element) through the document library:
`content` is `span.Attr("data-content")`, `cls` is `span.Attr("class")` (each empty when the
attribute is absent), `spanText` is `span.Text()` and `text` is `j.Text()`. -/
structure Fragment where
  content : String
  cls : String
  spanText : String
  text : String
  deriving DecidableEq, Repr

/-- What one pass of the worker's loop does with a job. -/
inductive WorkerStep where
  /-- The quality is empty: `continue`, nothing is sent. -/
  | dropped
  /-- The item sent on the output channel. -/
  | sent (item : LegendaryItem)
  /-- A run-time panic in `parseItemName` or `parseDestination`. -/
  | panicked
  deriving DecidableEq, Repr

/-- The body of the loop of Go `parseLegendaryItemWorker` for one job. -/
def parseLegendaryItemWorker.step (j : Fragment) : WorkerStep :=
  let rawStats := j.content
  let rawClass := j.cls
  let rawSpanText := String.mk (strings.TrimSpace j.spanText.data)
  let q := parseItemQuality rawClass
  if q == "" then WorkerStep.dropped
  else
    let r := parseItemRarity rawSpanText
    match parseItemName rawSpanText r with
    | none => WorkerStep.panicked
    | some n =>
      match parseDestination j.text with
      | none => WorkerStep.panicked
      | some d =>
        WorkerStep.sent
          { Name := n
            Rarity := r
            Quality := q
            IsIdentified := n == "unidentified"
            Destination := d
            Stats := parseItemStats rawStats }

/-! ## Updates and their order (`parser.go`, lines 58-70 and 326-330) -/

/-- Go `ServerUpdate`. -/
structure ServerUpdate where
  Items : List LegendaryItem
  ServerTimestamp : Time
  deriving DecidableEq, Repr

/-- One element of the insertion sort: `x` stands right after the sorted elements `sorted`, kept
here in reverse (nearest first), and is swapped with its left neighbour for as long as
`less x neighbour` holds. -/
def sort.insertLeft {α : Type} (less : α → α → Bool) (x : α) : List α → List α
  | [] => [x]
  | y :: rest => if less x y then y :: sort.insertLeft less x rest else x :: y :: rest

/-- Go `sort.Slice(x, less)` as the library (Go 1.19 and later) runs it on a slice of at most
12 elements, the insertion sort `insertionSortLessFunc`: each element in turn moves left past
the elements it is less than.  Longer slices go through the library's quicksort variant, which
has the same contract: the result is a rearrangement of the slice in which no element is less
than an earlier one. -/
def sort.Slice {α : Type} (less : α → α → Bool) (x : List α) : List α :=
  (x.foldl (fun sorted e => sort.insertLeft less e sorted) []).reverse

/-- The end of Go `parser.Parse`, after `wg.Wait()` and `close(updateChan)`: the updates are
taken from the channel in the order `arrived` in which the tasks sent them, sorted with
`sort.Slice` by `ServerTimestamp.Before`, and returned. -/
def Parse.collect (arrived : List ServerUpdate) : List ServerUpdate :=
  let parsedUpdates := arrived
  sort.Slice (fun a b => a.ServerTimestamp.Before b.ServerTimestamp) parsedUpdates

/-! ## Predicates of the specification -/

/-- The text has a colon, a white-space character and a letter at positions `i`, `i + 1` and
`i + 2`: an occurrence of the destination pattern starts at `i`. -/
def colonSpaceLetterAt (s : List Char) (i : Nat) : Bool :=
  match s.drop i with
  | c :: w :: l :: _ => c == ':' && reSpace w && reLetter l
  | _ => false

/-- The text starts with 2 digits, `/`, 2 digits, `/`, 4 digits, a white-space character, `-`,
a white-space character, 2 digits, `:`, 2 digits. -/
def isTimestampShape : List Char → Bool
  | d1 :: d2 :: s1 :: m1 :: m2 :: s2 :: y1 :: y2 :: y3 :: y4 :: w1 :: dash :: w2 ::
      h1 :: h2 :: col :: n1 :: n2 :: _ =>
    reDigit d1 && reDigit d2 && s1 == '/' && reDigit m1 && reDigit m2 && s2 == '/' &&
      reDigit y1 && reDigit y2 && reDigit y3 && reDigit y4 && reSpace w1 && dash == '-' &&
      reSpace w2 && reDigit h1 && reDigit h2 && col == ':' && reDigit n1 && reDigit n2
  | _ => false

/-- A substring of the timestamp shape starts at position `i` of the text. -/
def timestampShapeAt (s : List Char) (i : Nat) : Bool :=
  isTimestampShape (s.drop i)

/-- The number a list of ASCII digits writes in base ten. -/
def decimalValue (digits : List Char) : Nat :=
  digits.foldl (fun n c => n * 10 + (c.toNat - '0'.toNat)) 0

/-- The Gregorian leap-year rule. -/
def isLeapYear (year : Nat) : Bool :=
  year % 4 == 0 && (year % 100 != 0 || year % 400 == 0)

/-- The number of days of a month of the Gregorian calendar. -/
def daysInMonth (year month : Nat) : Nat :=
  if month == 2 then (if isLeapYear year then 29 else 28)
  else if month == 4 || month == 6 || month == 9 || month == 11 then 30
  else 31

/-- A valid calendar date and time of day (to the minute). -/
def validDateTime (year month day hour minute : Nat) : Bool :=
  1 ≤ month && month ≤ 12 && 1 ≤ day && day ≤ daysInMonth year month &&
    hour ≤ 23 && minute ≤ 59

/-- Whether the fields of the timestamp-shaped substring that starts at position `i` are a
valid calendar date and time. -/
def timestampFieldsValidAt (s : List Char) (i : Nat) : Bool :=
  match s.drop i with
  | d1 :: d2 :: _ :: m1 :: m2 :: _ :: y1 :: y2 :: y3 :: y4 :: _ :: _ :: _ ::
      h1 :: h2 :: _ :: n1 :: n2 :: _ =>
    validDateTime (decimalValue [y1, y2, y3, y4]) (decimalValue [m1, m2])
      (decimalValue [d1, d2]) (decimalValue [h1, h2]) (decimalValue [n1, n2])
  | _ => false

/-- A number below 100 written with two digits, zero-padded. -/
def pad2 (n : Nat) : List Char :=
  [Nat.digitChar (n / 10), Nat.digitChar (n % 10)]

/-- A number below 10000 written with four digits, zero-padded. -/
def pad4 (n : Nat) : List Char :=
  [Nat.digitChar (n / 1000), Nat.digitChar (n / 100 % 10), Nat.digitChar (n / 10 % 10),
    Nat.digitChar (n % 10)]

/-- The text `DD/MM/YYYY - HH:MM` of a date and time. -/
def formatTimestamp (year month day hour minute : Nat) : List Char :=
  pad2 day ++ '/' :: pad2 month ++ '/' :: pad4 year ++ ' ' :: '-' :: ' ' :: pad2 hour ++
    ':' :: pad2 minute

/-- An occurrence of the rarity pattern starts at position `i` of the text: an opening bracket,
one or more letters, and a closing bracket right after them. -/
def bracketTagAt (s : List Char) (i : Nat) : Bool :=
  match s.drop i with
  | c :: rest =>
    c == '[' && !(rest.takeWhile reLetter).isEmpty &&
      (rest.dropWhile reLetter).head? == some ']'
  | [] => false

/-- The text `sub` occurs in the text `s`. -/
def occursIn (sub s : List Char) : Bool :=
  s.tails.any (fun t => sub.isPrefixOf t)

/-! ## The HTTP service (`http_service.go`)

The transport and the document library are outside the repository.  A run of the service is
modelled against a `World`: the answers the transport will give to the successive requests, and
the requests sent so far.  The cookie jar lives in the transport, so it shows only through those
answers. -/

/-- Go `error`, by its message. -/
abbrev Error := String

abbrev ErrBadCredentials : Error := "provided user credentials are invalid"
abbrev ErrNoFormBuildID : Error := "could not parse 'form_build_id' from response body"
abbrev ErrNoActivityEndpoint : Error :=
  "could not parse bot activity endpoint from response body"
abbrev ErrCookiesRefresh : Error := "error refreshing cookies"

abbrev baseURL : String := "https://www.ros-bot.com"
abbrev loginEndpoint : String := "/user/login"

/-- One `div.timeline-item` of the feed page as `parseUpdate` reads it: `date` is
`s.Find("div.date").Text()`, `items` are the elements `s.Find("p.m-b-xs")` in document order. -/
structure UpdateBlock where
  date : String
  items : List Fragment
  deriving DecidableEq, Repr

/-- What the code reads from a page through the document library: `hiddenInputs` are the `name`
and `value` attributes of the elements `form#user-login input[type=hidden]`, `tabLinks` the
`href` attributes of the elements `ul.tabs--primary.nav.nav-tabs a` (an absent attribute reads
as the empty string), `updates` the elements `div.timeline-item`; each list is in document
order. -/
structure Document where
  hiddenInputs : List (String × String)
  tabLinks : List String
  updates : List UpdateBlock
  deriving DecidableEq, Repr

/-- A response body (`io.ReadCloser`) as `goquery.NewDocumentFromReader` sees it: an error when
reading it fails, else the document. -/
abbrev Body := Except Error Document

/-- Go `http.Response`, the fields the code reads: `RequestURL` is `res.Request.URL.String()`,
the address the transport ended at after following redirects. -/
structure Response where
  StatusCode : Int
  Body : Body
  RequestURL : String

/-- A request handed to `client.Do`. -/
structure Request where
  Method : String
  URL : String
  Form : List (String × String)
  deriving DecidableEq, Repr

/-- The other side of the connection during one run: the answer (an error of the transport or a
response) to each of the coming `client.Do` calls, in order, and the requests sent so far. -/
structure World where
  replies : List (Except Error Response)
  sent : List Request

/-- Go `client.Do(req)`: the request is recorded and the next answer is taken; with no answer
left the client's timeout ends the call with an error. -/
def World.Do (w : World) (req : Request) : Except Error Response × World :=
  match w.replies with
  | [] => (Except.error "Client.Timeout exceeded", { replies := [], sent := w.sent ++ [req] })
  | r :: rest => (r, { replies := rest, sent := w.sent ++ [req] })

/-- Go `credentials`. -/
structure credentials where
  UsernameOrEmail : String
  Password : String
  deriving DecidableEq, Repr

/-- Go `endpoints`. -/
structure endpoints where
  Login : String
  Activity : String
  deriving DecidableEq, Repr

/-- Go `httpService`, without the client (see `World`). -/
structure httpService where
  credentials : credentials
  endpoints : endpoints
  deriving DecidableEq, Repr

/-- Go `parseFormBuildID`: the `value` of the first hidden input named `form_build_id`; an error
when reading the body fails or when the result is the empty string. -/
def parseFormBuildID (body : Body) : Except Error String :=
  match body with
  | Except.error e => Except.error e
  | Except.ok doc =>
    let result :=
      match doc.hiddenInputs.find? (fun input => input.1 == "form_build_id") with
      | some input => input.2
      | none => ""
    if result == "" then Except.error ErrNoFormBuildID else Except.ok result

/-- A match of the pattern `/user/\d+/bot-activity` at the start of the text. -/
def activityRegex.matchAt (s : List Char) : Bool :=
  "/user/".data.isPrefixOf s &&
    !((s.drop 6).takeWhile reDigit).isEmpty &&
    "/bot-activity".data.isPrefixOf ((s.drop 6).dropWhile reDigit)

/-- Go `regexp.MatchString` for the pattern `/user/\d+/bot-activity`: whether the text has a
match anywhere. -/
def activityRegex.MatchString : List Char → Bool
  | [] => false
  | c :: cs => activityRegex.matchAt (c :: cs) || activityRegex.MatchString cs

/-- Go `parseActivityEndpoint`: the first tab link whose `href` matches the pattern; an error when
reading the body fails or when the result is the empty string. -/
def parseActivityEndpoint (body : Body) : Except Error String :=
  match body with
  | Except.error e => Except.error e
  | Except.ok doc =>
    let result :=
      match doc.tabLinks.find? (fun href => activityRegex.MatchString href.data) with
      | some href => href
      | none => ""
    if result == "" then Except.error ErrNoActivityEndpoint else Except.ok result

/-- Go `postForm`: GET the login page, read the form token, POST the credentials; the login
failed when the transport ended at the login address. -/
def postForm (s : httpService) (w : World) : Except Error Body × World :=
  match w.Do { Method := "GET", URL := s.endpoints.Login, Form := [] } with
  | (Except.error e, w1) => (Except.error e, w1)
  | (Except.ok res, w1) =>
    match parseFormBuildID res.Body with
    | Except.error e => (Except.error e, w1)
    | Except.ok id =>
      let form := [("name", s.credentials.UsernameOrEmail), ("pass", s.credentials.Password),
        ("form_id", "user_login"), ("op", "Log in"), ("form_build_id", id)]
      match w1.Do { Method := "POST", URL := s.endpoints.Login, Form := form } with
      | (Except.error e, w2) => (Except.error e, w2)
      | (Except.ok res2, w2) =>
        if res2.RequestURL == s.endpoints.Login then (Except.error ErrBadCredentials, w2)
        else (Except.ok res2.Body, w2)

/-- Go `Authenticate`: on success the path found on the landing page is appended to
`endpoints.Activity`; on an error the service is as it was. -/
def Authenticate (s : httpService) (w : World) : Except Error httpService × World :=
  match postForm s w with
  | (Except.error e, w1) => (Except.error e, w1)
  | (Except.ok body, w1) =>
    match parseActivityEndpoint body with
    | Except.error e => (Except.error e, w1)
    | Except.ok activityEndpoint =>
      (Except.ok { s with endpoints :=
        { s.endpoints with Activity := s.endpoints.Activity ++ activityEndpoint } }, w1)

/-- Go `newHTTPService`. -/
def newHTTPService (usernameOrEmail password : String) (w : World) :
    Except Error httpService × World :=
  Authenticate
    { credentials := { UsernameOrEmail := usernameOrEmail, Password := password }
      endpoints := { Login := baseURL ++ loginEndpoint, Activity := baseURL } } w

/-- How a call of `GetActivity` ends. -/
inductive GetActivity.Outcome where
  /-- The call returned a body and a nil error. -/
  | returned (body : Body)
  /-- The call returned a nil body and an error. -/
  | failed (err : Error)
  /-- The call did not return: `panic` with this message. -/
  | panicked (message : String)

/-- The end of a call of `GetActivity`: its outcome, the service and the world after it. -/
structure GetActivity.Result where
  outcome : GetActivity.Outcome
  service : httpService
  world : World

/-- Go `GetActivity`.  `urlError` is the verdict of `http.NewRequest` on an address (library
code, taken as a parameter): `none` when the address parses. -/
def GetActivity (s : httpService) (searchSegment : String) (urlError : String → Option Error)
    (w : World) : GetActivity.Result :=
  match urlError (s.endpoints.Activity ++ searchSegment) with
  | some e => { outcome := GetActivity.Outcome.failed e, service := s, world := w }
  | none =>
    match w.Do { Method := "GET", URL := s.endpoints.Activity ++ searchSegment, Form := [] } with
    | (Except.error e, w1) =>
      { outcome := GetActivity.Outcome.failed e, service := s, world := w1 }
    | (Except.ok res, w1) =>
      if res.StatusCode != 200 then
        match postForm s w1 with
        | (Except.error e, w2) =>
          { outcome := GetActivity.Outcome.panicked (ErrCookiesRefresh ++ ": " ++ e)
            service := s, world := w2 }
        | (Except.ok _, w2) =>
          { outcome := GetActivity.Outcome.returned res.Body, service := s, world := w2 }
      else
        { outcome := GetActivity.Outcome.returned res.Body, service := s, world := w1 }

/-! ### Sample pages and answers, after the test data of `http_service_test.go` -/

/-- The login page of the tests: its form token is `form-this-is-a-test`. -/
def samples.login : Except Error Response :=
  Except.ok { StatusCode := 200,
              Body := Except.ok ⟨[("form_build_id", "form-this-is-a-test")], [], []⟩,
              RequestURL := baseURL ++ loginEndpoint }

/-- The landing page of the tests: its activity link is `/user/1234567/bot-activity`. -/
def samples.landing : Except Error Response :=
  Except.ok { StatusCode := 200,
              Body := Except.ok ⟨[], ["/user/1234567/bot-activity"], []⟩,
              RequestURL := baseURL ++ "/user/user" }

/-- The body of an answer to a feed request made with an expired session. -/
def samples.expiredBody : Body :=
  Except.ok ⟨[("form_build_id", "form-expired")], [], []⟩

/-- An answer to a feed request made with an expired session: status 403. -/
def samples.expired : Except Error Response :=
  Except.ok { StatusCode := 403, Body := samples.expiredBody,
              RequestURL := baseURL ++ loginEndpoint }

/-- A feed page with one update block. -/
def samples.feed : Except Error Response :=
  Except.ok { StatusCode := 200,
              Body := Except.ok ⟨[], [], [⟨"05/10/2001 - 14:55", []⟩]⟩,
              RequestURL := baseURL ++ "/user/1234567/bot-activity/?page=1" }

/-- The service after a successful login that found `/user/1234567/bot-activity`. -/
def samples.service : httpService :=
  { credentials := { UsernameOrEmail := "user", Password := "pass" }
    endpoints := { Login := baseURL ++ loginEndpoint,
                   Activity := baseURL ++ "/user/1234567/bot-activity" } }

/-! ## The tasks of `Parse` (`parser.go`, lines 47-102)

`Parse` starts one `parseUpdate` task for every update block and waits for all of them; each
task starts four item workers.  The tasks run concurrently, so a run is modelled by a schedule:
the list of the steps taken, in order.  A step that cannot be taken in the state it meets (a
blocked send or receive, a wrong program point) leaves the state unchanged. -/

/-- The `ServerUpdate` literal of `parseUpdate` (lines 98-101), built from the items collected in
`legendaryItems`. -/
def parseUpdate.update (s : UpdateBlock) (config : ParserConfig)
    (legendaryItems : List LegendaryItem) : ServerUpdate :=
  { ServerTimestamp := parseTimestamp s.date
    Items := filterItems legendaryItems config }

/-- Where the goroutine of `parseUpdate` stands. -/
inductive parseUpdate.Pc where
  /-- In `items.Each` (line 89): `rest` are the jobs still to be sent on `jobs`. -/
  | sending (rest : List Fragment)
  /-- In `for item := range itemsChan` (lines 93-95). -/
  | ranging
  /-- After the loop, before `close(itemsChan)` (line 96). -/
  | closing
  /-- Before `out <- &ServerUpdate{...}` (lines 98-101). -/
  | delivering
  /-- The update is sent and the deferred `wg.Done()` has run. -/
  | done
  deriving DecidableEq, Repr

/-- The state of one `parseUpdate` task and its four workers.  The workers are alike, so they are
counted: `waiting` of them are blocked in `range jobs`, one holds each job of `held` (received,
loop body not yet run), `exited` have returned.  `itemsChan` is the buffer of the channel, of
capacity `capacity` (`items.Length()`). -/
structure parseUpdate.State where
  pc : parseUpdate.Pc
  jobsClosed : Bool
  waiting : Nat
  held : List Fragment
  exited : Nat
  capacity : Nat
  itemsChan : List LegendaryItem
  itemsClosed : Bool
  legendaryItems : List LegendaryItem
  panicked : Bool
  deriving DecidableEq, Repr

/-- The task when its four workers have been started (lines 82-88). -/
def parseUpdate.init (s : UpdateBlock) : parseUpdate.State :=
  { pc := parseUpdate.Pc.sending s.items, jobsClosed := false, waiting := 4, held := [],
    exited := 0, capacity := s.items.length, itemsChan := [], itemsClosed := false,
    legendaryItems := [], panicked := false }

/-- The steps of a task. -/
inductive parseUpdate.Action where
  /-- Line 89 with line 138: `jobs` has no buffer, so the send and a waiting worker's receive
  happen together. -/
  | handOver
  /-- Line 90: `close(jobs)`, after the last job; then the slice of line 92 is made. -/
  | closeJobs
  /-- Lines 139-164 for the job at index `k` of `held`: `continue`, or the send of the item on
  `itemsChan`, or a panic. -/
  | work (k : Nat)
  /-- A waiting worker finds `jobs` closed: its `range` ends and it returns. -/
  | exit
  /-- Lines 93-94: the loop takes an item from `itemsChan` and appends it. -/
  | receive
  /-- The `range` over `itemsChan` ends: the channel is closed and empty. -/
  | endRange
  /-- Line 96: `close(itemsChan)`. -/
  | closeItems
  /-- Lines 98-101 and the deferred `wg.Done()` of line 80. -/
  | deliver
  deriving DecidableEq, Repr

/-- The step `handOver`. -/
def parseUpdate.handOver (st : parseUpdate.State) : parseUpdate.State :=
  match st.pc with
  | parseUpdate.Pc.sending (j :: rest) =>
    if 0 < st.waiting then
      { st with pc := parseUpdate.Pc.sending rest, waiting := st.waiting - 1,
                held := st.held ++ [j] }
    else st
  | _ => st

/-- The step `closeJobs`. -/
def parseUpdate.closeJobs (st : parseUpdate.State) : parseUpdate.State :=
  match st.pc with
  | parseUpdate.Pc.sending [] => { st with pc := parseUpdate.Pc.ranging, jobsClosed := true }
  | _ => st

/-- The step `work k`.  A send on a full buffer blocks; a send on a closed channel panics. -/
def parseUpdate.work (st : parseUpdate.State) (k : Nat) : parseUpdate.State :=
  match st.held.get? k with
  | none => st
  | some j =>
    match parseLegendaryItemWorker.step j with
    | WorkerStep.dropped =>
      { st with held := st.held.eraseIdx k, waiting := st.waiting + 1 }
    | WorkerStep.sent item =>
      if st.itemsClosed then { st with panicked := true }
      else if st.itemsChan.length < st.capacity then
        { st with held := st.held.eraseIdx k, waiting := st.waiting + 1,
                  itemsChan := st.itemsChan ++ [item] }
      else st
    | WorkerStep.panicked => { st with panicked := true }

/-- The step `exit`. -/
def parseUpdate.exit (st : parseUpdate.State) : parseUpdate.State :=
  if st.jobsClosed && 0 < st.waiting then
    { st with waiting := st.waiting - 1, exited := st.exited + 1 }
  else st

/-- The step `receive`. -/
def parseUpdate.receive (st : parseUpdate.State) : parseUpdate.State :=
  match st.pc, st.itemsChan with
  | parseUpdate.Pc.ranging, item :: queue =>
    { st with itemsChan := queue, legendaryItems := st.legendaryItems ++ [item] }
  | _, _ => st

/-- The step `endRange`. -/
def parseUpdate.endRange (st : parseUpdate.State) : parseUpdate.State :=
  match st.pc with
  | parseUpdate.Pc.ranging =>
    if st.itemsChan.isEmpty && st.itemsClosed then { st with pc := parseUpdate.Pc.closing }
    else st
  | _ => st

/-- The step `closeItems`. -/
def parseUpdate.closeItems (st : parseUpdate.State) : parseUpdate.State :=
  match st.pc with
  | parseUpdate.Pc.closing => { st with pc := parseUpdate.Pc.delivering, itemsClosed := true }
  | _ => st

/-- The step `deliver`, as far as the task itself goes (the channel `out` belongs to
`Parse`). -/
def parseUpdate.deliver (st : parseUpdate.State) : parseUpdate.State :=
  match st.pc with
  | parseUpdate.Pc.delivering => { st with pc := parseUpdate.Pc.done }
  | _ => st

/-- One step of a task.  After a panic the process is gone: nothing moves. -/
def parseUpdate.step (st : parseUpdate.State) (a : parseUpdate.Action) : parseUpdate.State :=
  if st.panicked then st
  else
    match a with
    | parseUpdate.Action.handOver => parseUpdate.handOver st
    | parseUpdate.Action.closeJobs => parseUpdate.closeJobs st
    | parseUpdate.Action.work k => parseUpdate.work st k
    | parseUpdate.Action.exit => parseUpdate.exit st
    | parseUpdate.Action.receive => parseUpdate.receive st
    | parseUpdate.Action.endRange => parseUpdate.endRange st
    | parseUpdate.Action.closeItems => parseUpdate.closeItems st
    | parseUpdate.Action.deliver => parseUpdate.deliver st

/-- A task after the steps of a schedule. -/
def parseUpdate.run (st : parseUpdate.State) (schedule : List parseUpdate.Action) :
    parseUpdate.State :=
  schedule.foldl parseUpdate.step st

/-- The state of `Parse` between the start of the tasks (lines 54-56) and the end of
`wg.Wait()`: every block with its task, and the buffer of `updateChan`. -/
structure Parse.State where
  tasks : List (UpdateBlock × parseUpdate.State)
  updateChan : List ServerUpdate
  deriving DecidableEq, Repr

/-- `Parse` when it has started one task for every block. -/
def Parse.start (blocks : List UpdateBlock) : Parse.State :=
  { tasks := blocks.map (fun s => (s, parseUpdate.init s)), updateChan := [] }

/-- One step of `Parse`: the step `a` of the task of block number `i`.  A task that delivers puts
its update on `updateChan` (whose capacity is the number of blocks, so the send never blocks).
A panic in any task ends the process. -/
def Parse.step (config : ParserConfig) (st : Parse.State) (ia : Nat × parseUpdate.Action) :
    Parse.State :=
  if st.tasks.any (fun t => t.2.panicked) then st
  else
    match st.tasks.get? ia.1 with
    | none => st
    | some (s, t) =>
      { tasks := st.tasks.set ia.1 (s, parseUpdate.step t ia.2)
        updateChan :=
          if t.pc = parseUpdate.Pc.delivering ∧ ia.2 = parseUpdate.Action.deliver then
            st.updateChan ++ [parseUpdate.update s config t.legendaryItems]
          else st.updateChan }

/-- Whether `wg.Wait()` (line 58) is over: the process is alive and every task has run its
`wg.Done()`. -/
def Parse.waitOver (st : Parse.State) : Bool :=
  !st.tasks.any (fun t => t.2.panicked) &&
    st.tasks.all (fun t => decide (t.2.pc = parseUpdate.Pc.done))

/-- What `Parse` returns for the blocks of a feed document under a schedule of the tasks: `none`
when, after the schedule, `wg.Wait()` is still not over; else the updates of `updateChan`,
sorted (lines 59-70). -/
def Parse.result (blocks : List UpdateBlock) (config : ParserConfig)
    (schedule : List (Nat × parseUpdate.Action)) : Option (List ServerUpdate) :=
  let st := schedule.foldl (Parse.step config) (Parse.start blocks)
  if Parse.waitOver st then some (Parse.collect st.updateChan) else none

/-- The items the workers send for a list of jobs: one for every job whose loop body reaches the
send, in the order of the jobs. -/
def parseUpdate.records (jobs : List Fragment) : List LegendaryItem :=
  jobs.filterMap (fun j =>
    match parseLegendaryItemWorker.step j with
    | WorkerStep.sent item => some item
    | _ => none)

/-- The fragment's quality is legendary (Normal) or Set. -/
def isLegendaryOrSet (j : Fragment) : Bool :=
  parseItemQuality j.cls == QualityNormal || parseItemQuality j.cls == QualitySet

/-- The worker sends an item for the fragment and the item passes the filter of the
configuration. -/
def passesFilter (config : ParserConfig) (j : Fragment) : Bool :=
  match parseLegendaryItemWorker.step j with
  | WorkerStep.sent item => filterItems.condition config item
  | _ => false

/-- A block with one legendary fragment. -/
def samples.block : UpdateBlock :=
  { date := "05/10/2001 - 14:55"
    items := [⟨"Armor<br />\n 736", "text-legendary", "tyrael's might",
      "bot: Salvaged tyrael's might"⟩] }

/-- The jobs the task has still to send on `jobs`. -/
def parseUpdate.State.pending (st : parseUpdate.State) : List Fragment :=
  match st.pc with
  | parseUpdate.Pc.sending rest => rest
  | _ => []

/-- The items of a task, wherever they are: collected in `legendaryItems`, waiting in the buffer
of `itemsChan`, still to be made by a worker from a job it holds, or from a job not yet sent. -/
def parseUpdate.State.inFlight (st : parseUpdate.State) : List LegendaryItem :=
  st.legendaryItems ++ (st.itemsChan ++
    (parseUpdate.records st.held ++ parseUpdate.records st.pending))

/-- The task cannot leave its `range` loop: `itemsChan` is open and the task is at or before the
loop. -/
def parseUpdate.State.beforeClose (st : parseUpdate.State) : Prop :=
  st.itemsClosed = false ∧
    (st.pc = parseUpdate.Pc.ranging ∨ ∃ rest, st.pc = parseUpdate.Pc.sending rest)

/-- The loop body of the worker panics on the job. -/
def parseLegendaryItemWorker.panics (j : Fragment) : Bool :=
  decide (parseLegendaryItemWorker.step j = WorkerStep.panicked)

/-- The jobs of a task no worker is done with: held by a worker, or not yet sent. -/
def parseUpdate.State.jobsLeft (st : parseUpdate.State) : List Fragment :=
  st.held ++ st.pending

/-- The default configuration with the quality set to Set. -/
def samples.setOnly : ParserConfig :=
  { Destinations := [], RarityLevel := RarityNonAncient, Quality := QualitySet, Page := 1 }

/-- A schedule for a block with one fragment: the job is handed to a worker, `jobs` is closed, the
worker sends its item and the loop of `parseUpdate` takes it. -/
def samples.collected : List parseUpdate.Action :=
  [parseUpdate.Action.handOver, parseUpdate.Action.closeJobs, parseUpdate.Action.work 0,
    parseUpdate.Action.receive]

/-- The fragment of the comment at the head of `parseLegendaryItemWorker` (lines 109-137), the
"example of an identified legendary", as the worker reads it: the `data-content` attribute with
its character references decoded, the `class` attribute, the text of the span and the text of
the whole paragraph, with the line breaks and tabs of the comment. -/
def samples.documented : Fragment :=
  { content := "\n\t\t\t\tArmor<br />\n\t\t\t\t736<br />\n\t\t\t\tPrimary<br />" ++
      "\n\t\t\t\t+474 Dexterity<br />\n\t\t\t\t+430 Vitality<br />" ++
      "\n\t\t\t\t+95 Resistance to All Elements<br />\n\t\t\t\tSecondary<br />" ++
      "\n\t\t\t\t+19% Damage to Demons<br />\n\t\t\t\t+5840 Life after Each Kill<br />" ++
      "\n\t\t\t\tIgnores Durability Loss<br />\n\t\t\t\t1 Socket(s)"
    cls := "text-LegendaryItem"
    spanText := "tyrael's might\n\t\t\t"
    text := "\n\t\t\tTestDiablo3Name: Salvaged\n\t\t\ttyrael's might\n\t\t\t\n\t\t" }

/-! ## Lemmas on `filter` -/

theorem filter_foldl_eq (condition : LegendaryItem → Bool) (s acc : List LegendaryItem) :
    s.foldl (fun items e => if condition e then items ++ [e] else items) acc
      = acc ++ s.filter condition := by
  induction s generalizing acc with
  | nil => simp
  | cons e s ih =>
    by_cases h : condition e <;> simp [List.foldl_cons, List.filter_cons, h, ih]

theorem filter_eq_list_filter (s : List LegendaryItem) (condition : LegendaryItem → Bool) :
    filter s condition = s.filter condition := by
  simp [filter, filter_foldl_eq]

theorem contains_eq_true_iff (s : List Destination) (e : Destination) :
    contains s e = true ↔ e ∈ s := by
  induction s with
  | nil => simp [contains]
  | cons x s ih =>
    by_cases h : x = e
    · simp [contains, h]
    · have h2 : ¬ e = x := fun h3 => h h3.symm
      simp [contains, h, h2, ih]

/-! ## Lemmas on the insertion sort -/

theorem sort.insertLeft_perm {α : Type} (less : α → α → Bool) (x : α) (l : List α) :
    (sort.insertLeft less x l).Perm (x :: l) := by
  induction l with
  | nil => exact List.Perm.refl _
  | cons y rest ih =>
    unfold sort.insertLeft
    split
    · exact (List.Perm.cons y ih).trans (List.Perm.swap x y rest)
    · exact List.Perm.refl _

theorem sort.insertLeft_descending {α : Type} (key : α → Int) (x : α) (l : List α)
    (h : l.Pairwise (fun a b => key b ≤ key a)) :
    (sort.insertLeft (fun a b => decide (key a < key b)) x l).Pairwise
      (fun a b => key b ≤ key a) := by
  induction l with
  | nil => simp [sort.insertLeft]
  | cons y rest ih =>
    rw [List.pairwise_cons] at h
    unfold sort.insertLeft
    split
    · rename_i hlt
      have hxy : key x < key y := by simpa using hlt
      rw [List.pairwise_cons]
      refine ⟨fun b hb => ?_, ih h.2⟩
      have hb2 : b ∈ x :: rest := (sort.insertLeft_perm _ x rest).subset hb
      rcases List.mem_cons.mp hb2 with hbx | hbr
      · rw [hbx]; exact le_of_lt hxy
      · exact h.1 b hbr
    · rename_i hlt
      have hyx : key y ≤ key x := by simpa using hlt
      rw [List.pairwise_cons]
      refine ⟨fun b hb => ?_, List.pairwise_cons.mpr h⟩
      rcases List.mem_cons.mp hb with hby | hbr
      · rw [hby]; exact hyx
      · exact le_trans (h.1 b hbr) hyx

theorem sort.foldl_insertLeft_perm {α : Type} (less : α → α → Bool) (x acc : List α) :
    (x.foldl (fun sorted e => sort.insertLeft less e sorted) acc).Perm (x.reverse ++ acc) := by
  induction x generalizing acc with
  | nil => simp
  | cons e x ih =>
    rw [List.foldl_cons, List.reverse_cons, List.append_assoc]
    refine (ih _).trans (List.Perm.append_left _ ?_)
    exact sort.insertLeft_perm less e acc

theorem sort.foldl_insertLeft_descending {α : Type} (key : α → Int) (x acc : List α)
    (h : acc.Pairwise (fun a b => key b ≤ key a)) :
    (x.foldl (fun sorted e => sort.insertLeft (fun a b => decide (key a < key b)) e sorted)
      acc).Pairwise (fun a b => key b ≤ key a) := by
  induction x generalizing acc with
  | nil => simpa using h
  | cons e x ih =>
    rw [List.foldl_cons]
    exact ih _ (sort.insertLeft_descending key e acc h)

theorem sort.Slice_perm {α : Type} (less : α → α → Bool) (x : List α) :
    (sort.Slice less x).Perm x := by
  unfold sort.Slice
  refine (List.reverse_perm _).trans ?_
  refine (sort.foldl_insertLeft_perm less x []).trans ?_
  simp

theorem sort.Slice_ascending {α : Type} (key : α → Int) (x : List α) :
    (sort.Slice (fun a b => decide (key a < key b)) x).Pairwise
      (fun a b => key a ≤ key b) := by
  unfold sort.Slice
  rw [List.pairwise_reverse]
  exact sort.foldl_insertLeft_descending key x [] List.Pairwise.nil

/-! ## Lemmas on `parseDestination` -/

theorem unicode.ToLower_of_reLetter (c : Char) (h : reLetter c = true) :
    unicode.ToLower c = c.toLower := by
  simp only [reLetter, Bool.or_eq_true, Bool.and_eq_true, decide_eq_true_eq] at h
  simp only [unicode.ToLower, Char.toLower, Bool.and_eq_true, decide_eq_true_eq, beq_iff_eq]
  by_cases hu : 65 ≤ c.toNat ∧ c.toNat ≤ 90
  · simp [hu]
  · have h1 : ¬ c.toNat = 0x130 := by omega
    have h2 : ¬ c.toNat = 0x212A := by omega
    have h3 : ¬ (c.toNat ≥ 65 ∧ c.toNat ≤ 90) := hu
    simp [hu, h1, h2, h3]

theorem strings.ToLower_of_letters (w : List Char) (h : ∀ c ∈ w, reLetter c = true) :
    strings.ToLower w = w.map Char.toLower := by
  unfold strings.ToLower
  exact List.map_congr_left (fun c hc => unicode.ToLower_of_reLetter c (h c hc))

theorem destinationRegex.matchAt_eq_none (s : List Char) (h : colonSpaceLetterAt s 0 = false) :
    destinationRegex.matchAt s = none := by
  unfold colonSpaceLetterAt at h
  rw [List.drop_zero] at h
  unfold destinationRegex.matchAt
  split
  · rename_i c w l rest
    simp only at h
    simp [h]
  · rfl

theorem destinationRegex.FindStringSubmatch_skip (pre q : List Char)
    (h : ∀ i, i < pre.length → colonSpaceLetterAt (pre ++ q) i = false) :
    destinationRegex.FindStringSubmatch (pre ++ q) = destinationRegex.FindStringSubmatch q := by
  induction pre with
  | nil => rfl
  | cons c pre ih =>
    have h0 : colonSpaceLetterAt (c :: (pre ++ q)) 0 = false :=
      h 0 (by simp)
    have hrec : ∀ i, i < pre.length → colonSpaceLetterAt (pre ++ q) i = false := by
      intro i hi
      have := h (i + 1) (by simpa using hi)
      simpa [colonSpaceLetterAt] using this
    rw [List.cons_append, destinationRegex.FindStringSubmatch,
      destinationRegex.matchAt_eq_none _ h0]
    exact ih hrec

theorem takeWhile_word (p : Char → Bool) (w rest : List Char) (hw : ∀ c ∈ w, p c = true)
    (hrest : ∀ c t, rest = c :: t → p c = false) :
    (w ++ rest).takeWhile p = w := by
  induction w with
  | nil =>
    cases rest with
    | nil => rfl
    | cons c t => simp [List.takeWhile_cons, hrest c t rfl]
  | cons a w ih =>
    have ha : p a = true := hw a (by simp)
    rw [List.cons_append, List.takeWhile_cons, ha]
    simp only [if_true]
    rw [ih (fun c hc => hw c (by simp [hc]))]

theorem destinationRegex.FindStringSubmatch_word (ws : Char) (w rest : List Char)
    (hws : reSpace ws = true) (hw : w ≠ []) (hletters : ∀ c ∈ w, reLetter c = true)
    (hrest : ∀ c t, rest = c :: t → reLetter c = false) :
    destinationRegex.FindStringSubmatch (':' :: ws :: (w ++ rest)) = some [':' :: ws :: w, w] := by
  cases w with
  | nil => exact absurd rfl hw
  | cons l w =>
    have hl : reLetter l = true := hletters l (by simp)
    have htake : (l :: (w ++ rest)).takeWhile reLetter = l :: w := by
      have := takeWhile_word reLetter (l :: w) rest hletters hrest
      simpa using this
    rw [List.cons_append, destinationRegex.FindStringSubmatch, destinationRegex.matchAt, htake]
    simp [hws, hl]

theorem string_mk_beq (l : List Char) (s : String) :
    (String.mk l == s) = decide (l = s.data) := by
  by_cases h : l = s.data
  · subst h; simp
  · have : ¬ (String.mk l = s) := fun hh => h (by rw [← hh])
    simp [h, this]

/-! ## Lemmas on `parseItemQuality` -/

theorem unicode.ToLower_char_eq_iff (c t : Char) (hi : t ≠ 'i') (hk : t ≠ 'k')
    (h1 : t.toNat ≠ 0x130) (h2 : t.toNat ≠ 0x212A) :
    unicode.ToLower c = t ↔ c.toLower = t := by
  simp only [unicode.ToLower, Char.toLower, Bool.and_eq_true, decide_eq_true_eq, beq_iff_eq]
  by_cases hu : 65 ≤ c.toNat ∧ c.toNat ≤ 90
  · have h3 : c.toNat ≥ 65 ∧ c.toNat ≤ 90 := hu
    simp [hu, h3]
  · have h3 : ¬ (c.toNat ≥ 65 ∧ c.toNat ≤ 90) := hu
    simp only [hu, h3, if_false]
    by_cases hI : c.toNat = 0x130
    · simp only [hI, if_true]
      constructor
      · intro h; exact absurd h.symm hi
      · intro h; rw [← h] at h1; exact absurd hI h1
    · simp only [hI, if_false]
      by_cases hK : c.toNat = 0x212A
      · simp only [hK, if_true]
        constructor
        · intro h; exact absurd h.symm hk
        · intro h; rw [← h] at h2; exact absurd hK h2
      · simp only [hK, if_false]

theorem strings.ToLower_eq_literal_iff (s lit : List Char)
    (hlit : ∀ t ∈ lit, t ≠ 'i' ∧ t ≠ 'k' ∧ t.toNat ≠ 0x130 ∧ t.toNat ≠ 0x212A) :
    strings.ToLower s = lit ↔ s.map Char.toLower = lit := by
  unfold strings.ToLower
  induction s generalizing lit with
  | nil => simp
  | cons c s ih =>
    cases lit with
    | nil => simp
    | cons t lit =>
      have ht := hlit t (by simp)
      have hrest : ∀ u ∈ lit, u ≠ 'i' ∧ u ≠ 'k' ∧ u.toNat ≠ 0x130 ∧ u.toNat ≠ 0x212A :=
        fun u hu => hlit u (by simp [hu])
      simp only [List.map_cons, List.cons.injEq]
      rw [unicode.ToLower_char_eq_iff c t ht.1 ht.2.1 ht.2.2.1 ht.2.2.2, ih lit hrest]

theorem parseItemQuality_eq (raw : String) :
    parseItemQuality raw =
      if raw.data.map Char.toLower = "text-legendary".data then QualityNormal
      else if raw.data.map Char.toLower = "text-set".data then QualitySet
      else "" := by
  have h1 := strings.ToLower_eq_literal_iff raw.data "text-legendary".data (by decide)
  have h2 := strings.ToLower_eq_literal_iff raw.data "text-set".data (by decide)
  simp only [parseItemQuality, string_mk_beq, decide_eq_true_eq, h1, h2]

/-! ## Lemmas on `parseTimestamp` -/

theorem matchClasses_timestampRegex (u : List Char) :
    matchClasses timestampRegex u = isTimestampShape u := by
  unfold timestampRegex
  rcases u with _ | ⟨c1, _ | ⟨c2, _ | ⟨c3, _ | ⟨c4, _ | ⟨c5, _ | ⟨c6, _ | ⟨c7, _ | ⟨c8, _ | ⟨c9,
    _ | ⟨c10, _ | ⟨c11, _ | ⟨c12, _ | ⟨c13, _ | ⟨c14, _ | ⟨c15, _ | ⟨c16, _ | ⟨c17,
    _ | ⟨c18, u⟩⟩⟩⟩⟩⟩⟩⟩⟩⟩⟩⟩⟩⟩⟩⟩⟩⟩ <;>
  simp [matchClasses, isTimestampShape, Bool.and_assoc]

theorem isTimestampShape_iff (u : List Char) :
    isTimestampShape u = true ↔
      ∃ d1 d2 m1 m2 y1 y2 y3 y4 w1 w2 h1 h2 n1 n2 rest,
        u = d1 :: d2 :: '/' :: m1 :: m2 :: '/' :: y1 :: y2 :: y3 :: y4 :: w1 :: '-' :: w2 ::
          h1 :: h2 :: ':' :: n1 :: n2 :: rest ∧
        (reDigit d1 = true ∧ reDigit d2 = true ∧ reDigit m1 = true ∧ reDigit m2 = true) ∧
        (reDigit y1 = true ∧ reDigit y2 = true ∧ reDigit y3 = true ∧ reDigit y4 = true) ∧
        (reSpace w1 = true ∧ reSpace w2 = true) ∧
        (reDigit h1 = true ∧ reDigit h2 = true ∧ reDigit n1 = true ∧ reDigit n2 = true) := by
  constructor
  · intro h
    rcases u with _ | ⟨c1, _ | ⟨c2, _ | ⟨c3, _ | ⟨c4, _ | ⟨c5, _ | ⟨c6, _ | ⟨c7, _ | ⟨c8,
      _ | ⟨c9, _ | ⟨c10, _ | ⟨c11, _ | ⟨c12, _ | ⟨c13, _ | ⟨c14, _ | ⟨c15, _ | ⟨c16,
      _ | ⟨c17, _ | ⟨c18, u⟩⟩⟩⟩⟩⟩⟩⟩⟩⟩⟩⟩⟩⟩⟩⟩⟩⟩ <;>
    simp only [isTimestampShape, Bool.false_eq_true, Bool.and_eq_true, beq_iff_eq] at h
    obtain ⟨⟨⟨⟨⟨⟨⟨⟨⟨⟨⟨⟨⟨⟨⟨⟨⟨a1, a2⟩, a3⟩, a4⟩, a5⟩, a6⟩, a7⟩, a8⟩, a9⟩, a10⟩, a11⟩, a12⟩,
      a13⟩, a14⟩, a15⟩, a16⟩, a17⟩, a18⟩ := h
    subst a3 a6 a12 a16
    exact ⟨c1, c2, c4, c5, c7, c8, c9, c10, c11, c13, c14, c15, c17, c18, u, rfl,
      ⟨a1, a2, a4, a5⟩, ⟨a7, a8, a9, a10⟩, ⟨a11, a13⟩, ⟨a14, a15, a17, a18⟩⟩
  · rintro ⟨d1, d2, m1, m2, y1, y2, y3, y4, w1, w2, h1, h2, n1, n2, rest, rfl,
      ⟨a1, a2, a4, a5⟩, ⟨a7, a8, a9, a10⟩, ⟨a11, a13⟩, ⟨a14, a15, a17, a18⟩⟩
    simp [isTimestampShape, a1, a2, a4, a5, a7, a8, a9, a10, a11, a13, a14, a15, a17, a18]

theorem timestampRegex.FindString_none (s : List Char)
    (h : ∀ i, i < s.length → timestampShapeAt s i = false) :
    timestampRegex.FindString s = [] := by
  induction s with
  | nil => rfl
  | cons c s ih =>
    have h0 : isTimestampShape (c :: s) = false := by
      simpa [timestampShapeAt] using h 0 (by simp)
    have hrec : ∀ i, i < s.length → timestampShapeAt s i = false := by
      intro i hi
      simpa [timestampShapeAt] using h (i + 1) (by simpa using hi)
    rw [timestampRegex.FindString, matchClasses_timestampRegex, h0]
    simpa using ih hrec

theorem timestampRegex.FindString_first (s : List Char) (i : Nat)
    (hi : timestampShapeAt s i = true)
    (hfirst : ∀ j, j < i → timestampShapeAt s j = false) :
    timestampRegex.FindString s = (s.drop i).take 18 := by
  induction s generalizing i with
  | nil => simp [timestampShapeAt, isTimestampShape] at hi
  | cons c s ih =>
    cases i with
    | zero =>
      have h0 : isTimestampShape (c :: s) = true := by
        simpa [timestampShapeAt] using hi
      rw [timestampRegex.FindString, matchClasses_timestampRegex, h0]
      simp
    | succ i =>
      have h0 : isTimestampShape (c :: s) = false := by
        simpa [timestampShapeAt] using hfirst 0 (by simp)
      have hi2 : timestampShapeAt s i = true := by
        simpa [timestampShapeAt] using hi
      have hrec : ∀ j, j < i → timestampShapeAt s j = false := by
        intro j hj
        simpa [timestampShapeAt] using hfirst (j + 1) (by simpa using hj)
      rw [timestampRegex.FindString, matchClasses_timestampRegex, h0]
      simpa using ih i hi2 hrec

theorem reDigit_of_IsSpace (c : Char) (h : unicode.IsSpace c = true) : reDigit c = false := by
  simp only [unicode.IsSpace, Bool.or_eq_true, Bool.and_eq_true, decide_eq_true_eq,
    beq_iff_eq] at h
  simp only [reDigit, Bool.and_eq_false_iff, decide_eq_false_iff_not]
  omega

theorem matchClasses_length (ps : List (Char → Bool)) (u : List Char)
    (h : matchClasses ps u = true) : ps.length ≤ u.length := by
  induction ps generalizing u with
  | nil => simp
  | cons p ps ih =>
    cases u with
    | nil => simp [matchClasses] at h
    | cons c u =>
      simp only [matchClasses, Bool.and_eq_true] at h
      simpa using ih u h.2

theorem matchClasses_spaces (ps : List (Char → Bool)) (hne : ps ≠ [])
    (hlast : ∀ p ∈ ps.getLast?, ∀ c, unicode.IsSpace c = true → p c = false)
    (w : List Char) (hw : ∀ c ∈ w, unicode.IsSpace c = true) :
    matchClasses ps w = false := by
  induction ps generalizing w with
  | nil => exact absurd rfl hne
  | cons p ps ih =>
    cases w with
    | nil => rfl
    | cons c w =>
      cases ps with
      | nil =>
        have hp : p c = false := hlast p (by simp) c (hw c (by simp))
        simp [matchClasses, hp]
      | cons q ps =>
        have hrec := ih (by simp)
          (fun r hr => hlast r (by simpa [List.getLast?_cons_cons] using hr)) w
          (fun d hd => hw d (by simp [hd]))
        simp [matchClasses, hrec]

theorem matchClasses_append_spaces (ps : List (Char → Bool))
    (hlast : ∀ p ∈ ps.getLast?, ∀ c, unicode.IsSpace c = true → p c = false)
    (u w : List Char) (hw : ∀ c ∈ w, unicode.IsSpace c = true) :
    matchClasses ps (u ++ w) = matchClasses ps u := by
  induction u generalizing ps with
  | nil =>
    cases ps with
    | nil => cases w <;> rfl
    | cons p ps =>
      rw [List.nil_append, matchClasses_spaces (p :: ps) (by simp) hlast w hw]
      rfl
  | cons c u ih =>
    cases ps with
    | nil => rfl
    | cons p ps =>
      have hrec : ∀ r ∈ ps.getLast?, ∀ c, unicode.IsSpace c = true → r c = false := by
        intro r hr
        cases ps with
        | nil => simp at hr
        | cons q ps => exact hlast r (by simpa [List.getLast?_cons_cons] using hr)
      rw [List.cons_append, matchClasses, matchClasses, ih ps hrec]

theorem timestampRegex_last :
    ∀ p ∈ timestampRegex.getLast?, ∀ c, unicode.IsSpace c = true → p c = false := by
  intro p hp c hc
  have : p = reDigit := by
    simp [timestampRegex] at hp
    exact hp.symm
  rw [this]
  exact reDigit_of_IsSpace c hc

theorem timestampRegex.FindString_spaces (w : List Char)
    (hw : ∀ c ∈ w, unicode.IsSpace c = true) : timestampRegex.FindString w = [] := by
  induction w with
  | nil => rfl
  | cons c w ih =>
    have hm : matchClasses timestampRegex (c :: w) = false :=
      matchClasses_spaces timestampRegex (by simp [timestampRegex]) timestampRegex_last _ hw
    rw [timestampRegex.FindString, hm]
    simpa using ih (fun d hd => hw d (by simp [hd]))

theorem timestampRegex.FindString_append_spaces (u w : List Char)
    (hw : ∀ c ∈ w, unicode.IsSpace c = true) :
    timestampRegex.FindString (u ++ w) = timestampRegex.FindString u := by
  induction u with
  | nil => simpa [timestampRegex.FindString] using timestampRegex.FindString_spaces w hw
  | cons c u ih =>
    have hm := matchClasses_append_spaces timestampRegex timestampRegex_last (c :: u) w hw
    rw [List.cons_append] at hm
    rw [List.cons_append, timestampRegex.FindString, timestampRegex.FindString, hm, ih]
    by_cases hc : matchClasses timestampRegex (c :: u) = true
    · have hlen : 18 ≤ (c :: u).length := by
        simpa [timestampRegex] using matchClasses_length _ _ hc
      simp only [hc, if_true]
      rw [← List.cons_append, List.take_append_of_le_length hlen]
    · simp [hc]

theorem timestampRegex.FindString_dropWhile (s : List Char) :
    timestampRegex.FindString (s.dropWhile unicode.IsSpace) = timestampRegex.FindString s := by
  induction s with
  | nil => rfl
  | cons c s ih =>
    by_cases hc : unicode.IsSpace c = true
    · have hm : matchClasses timestampRegex (c :: s) = false := by
        simp [timestampRegex, matchClasses, reDigit_of_IsSpace c hc]
      rw [List.dropWhile_cons, if_pos hc, ih, timestampRegex.FindString.eq_2, hm]
      simp
    · rw [List.dropWhile_cons, if_neg hc]

theorem timestampRegex.FindString_TrimSpace (s : List Char) :
    timestampRegex.FindString (strings.TrimSpace s) = timestampRegex.FindString s := by
  unfold strings.TrimSpace
  have hsplit : (s.dropWhile unicode.IsSpace) =
      ((s.dropWhile unicode.IsSpace).reverse.dropWhile unicode.IsSpace).reverse ++
        ((s.dropWhile unicode.IsSpace).reverse.takeWhile unicode.IsSpace).reverse := by
    rw [← List.reverse_append, List.takeWhile_append_dropWhile, List.reverse_reverse]
  have hw : ∀ c ∈ ((s.dropWhile unicode.IsSpace).reverse.takeWhile unicode.IsSpace).reverse,
      unicode.IsSpace c = true := by
    intro c hc
    rw [List.mem_reverse] at hc
    exact List.mem_takeWhile_imp hc
  rw [← timestampRegex.FindString_append_spaces _ _ hw, ← hsplit,
    timestampRegex.FindString_dropWhile]

theorem space_beq_of_reDigit (c : Char) (h : reDigit c = true) : (' ' == c) = false := by
  rw [beq_eq_false_iff_ne]
  intro hc
  rw [← hc] at h
  exact absurd h (by decide)

theorem beq_space_of_reDigit (c : Char) (h : reDigit c = true) : (c == ' ') = false := by
  rw [beq_eq_false_iff_ne]
  intro hc
  rw [hc] at h
  exact absurd h (by decide)

theorem time.daysIn_eq (month year : Nat) (h1 : 1 ≤ month) (h12 : month ≤ 12) :
    time.daysIn month year = daysInMonth year month := by
  unfold time.daysIn daysInMonth time.isLeap isLeapYear
  interval_cases month <;> simp

theorem time.guards_eq (Y M D H N : Nat) :
    (Option.bind (guard ¬(M = 0 ∨ 12 < M)) fun _ =>
      Option.bind (guard ¬24 ≤ H) fun _ =>
        Option.bind (guard ¬60 ≤ N) fun _ =>
          Option.bind (guard True) fun _ =>
            Option.bind (guard ¬(D < 1 ∨ time.daysIn M Y < D)) fun _ =>
              some ({ year := Y, month := M, day := D, hour := H, minute := N,
                      second := 0 } : Time)) =
      if validDateTime Y M D H N = true then
        some { year := Y, month := M, day := D, hour := H, minute := N, second := 0 }
      else none := by
  by_cases hM : M = 0 ∨ 12 < M
  · have hv : ¬ (validDateTime Y M D H N = true) := by
      simp only [validDateTime, Bool.and_eq_true, decide_eq_true_eq]
      omega
    simp [guard, hM, hv]
  · have hM1 : 1 ≤ M := by omega
    have hM12 : M ≤ 12 := by omega
    rw [time.daysIn_eq M Y hM1 hM12]
    by_cases hv : validDateTime Y M D H N = true
    · have hv2 := hv
      simp only [validDateTime, Bool.and_eq_true, decide_eq_true_eq] at hv2
      have g2 : ¬ 24 ≤ H := by omega
      have g3 : ¬ 60 ≤ N := by omega
      have g5 : ¬ D = 0 ∧ D ≤ daysInMonth Y M := by omega
      simp [guard, hM, g2, g3, g5, hv]
    · have hv2 := hv
      simp only [validDateTime, Bool.and_eq_true, decide_eq_true_eq] at hv2
      by_cases g2 : 24 ≤ H
      · simp [guard, hM, g2, hv]
      · by_cases g3 : 60 ≤ N
        · simp [guard, hM, g2, g3, hv]
        · have g5 : ¬ D = 0 → daysInMonth Y M < D := by omega
          simp [guard, hM, g2, g3, hv]
          exact g5

theorem time.Parse_shape (d1 d2 m1 m2 y1 y2 y3 y4 h1 h2 n1 n2 : Char)
    (hd : reDigit d1 = true ∧ reDigit d2 = true ∧ reDigit m1 = true ∧ reDigit m2 = true)
    (hy : reDigit y1 = true ∧ reDigit y2 = true ∧ reDigit y3 = true ∧ reDigit y4 = true)
    (ht : reDigit h1 = true ∧ reDigit h2 = true ∧ reDigit n1 = true ∧ reDigit n2 = true) :
    time.Parse [d1, d2, '/', m1, m2, '/', y1, y2, y3, y4, ' ', h1, h2, ':', n1, n2] =
      if validDateTime (decimalValue [y1, y2, y3, y4]) (decimalValue [m1, m2])
          (decimalValue [d1, d2]) (decimalValue [h1, h2]) (decimalValue [n1, n2]) = true then
        some { year := decimalValue [y1, y2, y3, y4], month := decimalValue [m1, m2],
               day := decimalValue [d1, d2], hour := decimalValue [h1, h2],
               minute := decimalValue [n1, n2], second := 0 }
      else none := by
  obtain ⟨a1, a2, a3, a4⟩ := hd
  obtain ⟨b1, b2, b3, b4⟩ := hy
  obtain ⟨c1, c2, c3, c4⟩ := ht
  have e1 := beq_space_of_reDigit h1 c1
  simp only [time.Parse, time.getnum, time.skipChar, time.longYear, time.skipSpace,
    a1, a2, a3, a4, b1, b2, b3, b4, c1, c2, c3, c4, e1, Bool.not_true, Bool.false_eq_true,
    if_false, if_true, Bool.and_self, beq_self_eq_true, List.dropWhile_cons,
    Option.bind_eq_bind, Option.some_bind, Option.pure_def, bind_pure_comp, time.digitVal]
  have v1 : ∀ a b : Char, decimalValue [a, b] = (a.toNat - 48) * 10 + (b.toNat - 48) := by
    intro a b; simp [decimalValue]
  have v2 : ∀ a b c d : Char, decimalValue [a, b, c, d] =
      (((a.toNat - 48) * 10 + (b.toNat - 48)) * 10 + (c.toNat - 48)) * 10 + (d.toNat - 48) := by
    intro a b c d; simp [decimalValue]
  rw [v1, v1, v1, v1, v2]
  exact time.guards_eq _ _ _ _ _

theorem dash_beq_of_reDigit (c : Char) (h : reDigit c = true) : ('-' == c) = false := by
  rw [beq_eq_false_iff_ne]
  intro hc
  rw [← hc] at h
  exact absurd h (by decide)

theorem strings.ReplaceAll_shape (d1 d2 m1 m2 y1 y2 y3 y4 w1 w2 h1 h2 n1 n2 : Char)
    (hd : reDigit d1 = true ∧ reDigit d2 = true ∧ reDigit m1 = true ∧ reDigit m2 = true)
    (hy : reDigit y1 = true ∧ reDigit y2 = true ∧ reDigit y3 = true ∧ reDigit y4 = true)
    (ht : reDigit h1 = true ∧ reDigit h2 = true ∧ reDigit n1 = true ∧ reDigit n2 = true) :
    strings.ReplaceAll
        [d1, d2, '/', m1, m2, '/', y1, y2, y3, y4, w1, '-', w2, h1, h2, ':', n1, n2]
        [' ', '-'] =
      if w1 = ' ' then [d1, d2, '/', m1, m2, '/', y1, y2, y3, y4, w2, h1, h2, ':', n1, n2]
      else [d1, d2, '/', m1, m2, '/', y1, y2, y3, y4, w1, '-', w2, h1, h2, ':', n1, n2] := by
  obtain ⟨a1, a2, a3, a4⟩ := hd
  obtain ⟨b1, b2, b3, b4⟩ := hy
  obtain ⟨c1, c2, c3, c4⟩ := ht
  have s1 : (' ' == '/') = false := by decide
  have s2 : (' ' == '-') = false := by decide
  have s3 : (' ' == ':') = false := by decide
  have hdash := dash_beq_of_reDigit h1 c1
  by_cases hw : w1 = ' '
  · subst hw
    simp [strings.ReplaceAll, strings.removeAll, List.isPrefixOf, s1, s2, s3, hdash,
      space_beq_of_reDigit _ a1, space_beq_of_reDigit _ a2, space_beq_of_reDigit _ a3,
      space_beq_of_reDigit _ a4, space_beq_of_reDigit _ b1, space_beq_of_reDigit _ b2,
      space_beq_of_reDigit _ b3, space_beq_of_reDigit _ b4, space_beq_of_reDigit _ c1,
      space_beq_of_reDigit _ c2, space_beq_of_reDigit _ c3, space_beq_of_reDigit _ c4]
  · have hw2 : (' ' == w1) = false := by
      rw [beq_eq_false_iff_ne]; exact fun h => hw h.symm
    simp [strings.ReplaceAll, strings.removeAll, List.isPrefixOf, s1, s2, s3, hdash, hw, hw2,
      space_beq_of_reDigit _ a1, space_beq_of_reDigit _ a2, space_beq_of_reDigit _ a3,
      space_beq_of_reDigit _ a4, space_beq_of_reDigit _ b1, space_beq_of_reDigit _ b2,
      space_beq_of_reDigit _ b3, space_beq_of_reDigit _ b4, space_beq_of_reDigit _ c1,
      space_beq_of_reDigit _ c2, space_beq_of_reDigit _ c3, space_beq_of_reDigit _ c4]

theorem guard_bind_none (p : Prop) [Decidable p] :
    (Option.bind (guard p) fun _ => (none : Option Time)) = none := by
  by_cases h : p <;> simp [guard, h]

theorem time.Parse_no_space (d1 d2 m1 m2 y1 y2 y3 y4 w : Char) (rest : List Char)
    (hd : reDigit d1 = true ∧ reDigit d2 = true ∧ reDigit m1 = true ∧ reDigit m2 = true)
    (hy : reDigit y1 = true ∧ reDigit y2 = true ∧ reDigit y3 = true ∧ reDigit y4 = true)
    (hw : w ≠ ' ') :
    time.Parse (d1 :: d2 :: '/' :: m1 :: m2 :: '/' :: y1 :: y2 :: y3 :: y4 :: w :: rest)
      = none := by
  obtain ⟨a1, a2, a3, a4⟩ := hd
  obtain ⟨b1, b2, b3, b4⟩ := hy
  have hw2 : (w == ' ') = false := by
    rw [beq_eq_false_iff_ne]; exact hw
  simp only [time.Parse, time.getnum, time.skipChar, time.longYear, time.skipSpace,
    a1, a2, a3, a4, b1, b2, b3, b4, hw2, Bool.not_true, Bool.false_eq_true,
    if_false, if_true, Bool.and_self, beq_self_eq_true,
    Option.bind_eq_bind, Option.some_bind, Option.none_bind]
  exact guard_bind_none _

theorem reDigit_digitChar (k : Nat) (h : k < 10) : reDigit (Nat.digitChar k) = true := by
  interval_cases k <;> decide

theorem digitChar_toNat (k : Nat) (h : k < 10) : (Nat.digitChar k).toNat - 48 = k := by
  interval_cases k <;> rfl

theorem decimalValue_pad2 (n : Nat) (h : n < 100) : decimalValue (pad2 n) = n := by
  have h1 := digitChar_toNat (n / 10) (by omega)
  have h2 := digitChar_toNat (n % 10) (by omega)
  simp only [decimalValue, pad2, List.foldl_cons, List.foldl_nil, h1, h2]
  have : ('0' : Char).toNat = 48 := rfl
  rw [this, h1, h2]
  omega

theorem decimalValue_pad4 (n : Nat) (h : n < 10000) : decimalValue (pad4 n) = n := by
  have h1 := digitChar_toNat (n / 1000) (by omega)
  have h2 := digitChar_toNat (n / 100 % 10) (by omega)
  have h3 := digitChar_toNat (n / 10 % 10) (by omega)
  have h4 := digitChar_toNat (n % 10) (by omega)
  simp only [decimalValue, pad4, List.foldl_cons, List.foldl_nil]
  have : ('0' : Char).toNat = 48 := rfl
  rw [this, h1, h2, h3, h4]
  omega

theorem daysInMonth_le (year month : Nat) : daysInMonth year month ≤ 31 := by
  unfold daysInMonth
  split_ifs <;> omega

/-! ## Lemmas on `parseItemRarity` and `parseItemName` -/

theorem rarityRegex.matchAt_tag_eq_none (s : List Char) (h : bracketTagAt s 0 = false) :
    rarityRegex.matchAt s = none := by
  unfold bracketTagAt at h
  rw [List.drop_zero] at h
  cases s with
  | nil => rfl
  | cons c rest =>
    simp only at h
    simp only [rarityRegex.matchAt, h]
    rfl

theorem rarityRegex.FindString_skip (pre q : List Char)
    (h : ∀ i, i < pre.length → bracketTagAt (pre ++ q) i = false) :
    rarityRegex.FindString (pre ++ q) = rarityRegex.FindString q := by
  induction pre with
  | nil => rfl
  | cons c pre ih =>
    have h0 : bracketTagAt (c :: (pre ++ q)) 0 = false := h 0 (by simp)
    have hrec : ∀ i, i < pre.length → bracketTagAt (pre ++ q) i = false := by
      intro i hi
      have := h (i + 1) (by simpa using hi)
      simpa [bracketTagAt] using this
    rw [List.cons_append, rarityRegex.FindString, rarityRegex.matchAt_tag_eq_none _ h0]
    exact ih hrec

theorem rarityRegex.FindString_no_tag (s : List Char)
    (h : ∀ i, i < s.length → bracketTagAt s i = false) :
    rarityRegex.FindString s = [] := by
  have := rarityRegex.FindString_skip s [] (by simpa using h)
  simpa [rarityRegex.FindString] using this

theorem dropWhile_word (p : Char → Bool) (w rest : List Char) (hw : ∀ c ∈ w, p c = true)
    (hrest : ∀ c t, rest = c :: t → p c = false) :
    (w ++ rest).dropWhile p = rest := by
  induction w with
  | nil =>
    cases rest with
    | nil => rfl
    | cons c t => simp [List.dropWhile_cons, hrest c t rfl]
  | cons a w ih =>
    have ha : p a = true := hw a (by simp)
    rw [List.cons_append, List.dropWhile_cons, ha]
    simp only [if_true]
    exact ih (fun c hc => hw c (by simp [hc]))

theorem rarityRegex.FindString_tag (w rest : List Char) (hw : w ≠ [])
    (hletters : ∀ c ∈ w, reLetter c = true) :
    rarityRegex.FindString ('[' :: (w ++ ']' :: rest)) = '[' :: (w ++ [']']) := by
  have hclose : ∀ c t, ']' :: rest = c :: t → reLetter c = false := by
    intro c t h
    cases h
    decide
  have htake := takeWhile_word reLetter w (']' :: rest) hletters hclose
  have hdrop := dropWhile_word reLetter w (']' :: rest) hletters hclose
  have hne : w.isEmpty = false := by
    cases w with
    | nil => exact absurd rfl hw
    | cons a w => rfl
  rw [rarityRegex.FindString, rarityRegex.matchAt]
  simp [htake, hdrop, hne]

theorem strings.ToLower_tag (w : List Char) (hletters : ∀ c ∈ w, reLetter c = true) :
    strings.ToLower ('[' :: (w ++ [']'])) = '[' :: (w.map Char.toLower ++ [']']) := by
  have h := strings.ToLower_of_letters w hletters
  unfold strings.ToLower at h ⊢
  rw [List.map_cons, List.map_append, h]
  rfl

theorem tag_eq_iff (l lit : List Char) :
    ('[' :: (l ++ [']']) = '[' :: (lit ++ [']'])) ↔ l = lit := by
  constructor
  · intro h
    exact List.append_cancel_right (List.cons.inj h).2
  · intro h
    rw [h]

theorem parseItemRarity_of_find (raw : String) (w : List Char)
    (hletters : ∀ c ∈ w, reLetter c = true)
    (hfind : rarityRegex.FindString raw.data = '[' :: (w ++ [']'])) :
    parseItemRarity raw =
      if w.map Char.toLower = "ancient".data then RarityAncient
      else if w.map Char.toLower = "primal".data then RarityPrimal
      else RarityNonAncient := by
  have ha : ∀ l : List Char,
      ('[' :: (l ++ [']']) = ['[', 'a', 'n', 'c', 'i', 'e', 'n', 't', ']']) ↔
        l = ['a', 'n', 'c', 'i', 'e', 'n', 't'] :=
    fun l => tag_eq_iff l ['a', 'n', 'c', 'i', 'e', 'n', 't']
  have hp : ∀ l : List Char,
      ('[' :: (l ++ [']']) = ['[', 'p', 'r', 'i', 'm', 'a', 'l', ']']) ↔
        l = ['p', 'r', 'i', 'm', 'a', 'l'] :=
    fun l => tag_eq_iff l ['p', 'r', 'i', 'm', 'a', 'l']
  unfold parseItemRarity
  simp only [hfind, strings.ToLower_tag w hletters, string_mk_beq, decide_eq_true_eq, ha, hp]

theorem strings.splitLoop_no_sep (sep n cur : List Char)
    (h : ∀ i, sep.isPrefixOf (n.drop i) = false) :
    strings.splitLoop sep n 0 cur = [cur.reverse ++ n] := by
  induction n generalizing cur with
  | nil => simp [strings.splitLoop]
  | cons c n ih =>
    have h0 : sep.isPrefixOf (c :: n) = false := by simpa using h 0
    have hrec : ∀ i, sep.isPrefixOf (n.drop i) = false := by
      intro i
      simpa using h (i + 1)
    rw [strings.splitLoop, h0]
    simp only [Bool.false_eq_true, if_false]
    rw [ih _ hrec]
    simp

theorem strings.Split_tagged (t n : List Char) (ht : ∀ c ∈ t, reLetter c = true)
    (h : ∀ i, [']', ' '].isPrefixOf (n.drop i) = false) :
    strings.Split ('[' :: (t ++ ']' :: ' ' :: n)) [']', ' '] = ['[' :: t, n] := by
  have hgo : ∀ (u cur : List Char), (∀ c ∈ u, reLetter c = true) →
      strings.splitLoop [']', ' '] (u ++ ']' :: ' ' :: n) 0 cur =
        [cur.reverse ++ u, n] := by
    intro u
    induction u with
    | nil =>
      intro cur _
      rw [List.nil_append, strings.splitLoop]
      simp [List.isPrefixOf, strings.splitLoop, strings.splitLoop_no_sep _ n [] h]
    | cons a u ih =>
      intro cur hu
      have ha : reLetter a = true := hu a (by simp)
      have hne : (']' == a) = false := by
        rw [beq_eq_false_iff_ne]
        intro hc
        rw [← hc] at ha
        exact absurd ha (by decide)
      rw [List.cons_append, strings.splitLoop]
      simp only [List.isPrefixOf, hne, Bool.false_and, Bool.false_eq_true, if_false]
      rw [ih (a :: cur) (fun c hc => hu c (by simp [hc]))]
      simp
  unfold strings.Split
  rw [strings.splitLoop]
  have hb : [']', ' '].isPrefixOf ('[' :: (t ++ ']' :: ' ' :: n)) = false := by
    simp [List.isPrefixOf]
  rw [hb]
  simp only [Bool.false_eq_true, if_false]
  rw [hgo t ['['] ht]
  simp

/-! ## Lemmas on the order of equal and of distinct timestamps -/

theorem sort.Slice_strictly_ascending {α : Type} (key : α → Int) (x : List α)
    (hdistinct : (x.map key).Nodup) :
    (sort.Slice (fun a b => decide (key a < key b)) x).Pairwise
      (fun a b => key a < key b) := by
  have hperm := sort.Slice_perm (fun a b => decide (key a < key b)) x
  have hnodup : ((sort.Slice (fun a b => decide (key a < key b)) x).map key).Nodup :=
    (List.Perm.nodup_iff (hperm.map key)).mpr hdistinct
  have hne : (sort.Slice (fun a b => decide (key a < key b)) x).Pairwise
      (fun a b => key a ≠ key b) := by
    unfold List.Nodup at hnodup
    rw [List.pairwise_map] at hnodup
    exact hnodup
  exact ((sort.Slice_ascending key x).and hne).imp (fun h => lt_of_le_of_ne h.1 h.2)

theorem sort.Slice_eq_of_perm {α : Type} (key : α → Int) (x y : List α) (hperm : x.Perm y)
    (hdistinct : (x.map key).Nodup) :
    sort.Slice (fun a b => decide (key a < key b)) x
      = sort.Slice (fun a b => decide (key a < key b)) y := by
  have hy : (y.map key).Nodup := (List.Perm.nodup_iff (hperm.map key)).mp hdistinct
  have sx := sort.Slice_strictly_ascending key x hdistinct
  have sy := sort.Slice_strictly_ascending key y hy
  have hp : (sort.Slice (fun a b => decide (key a < key b)) x).Perm
      (sort.Slice (fun a b => decide (key a < key b)) y) :=
    ((sort.Slice_perm _ x).trans hperm).trans (sort.Slice_perm _ y).symm
  haveI : IsAntisymm α (fun a b => key a < key b) :=
    ⟨fun a b h1 h2 => absurd h1 (not_lt.mpr (le_of_lt h2))⟩
  exact List.eq_of_perm_of_sorted hp sx sy

/-! ## Lemmas on the tasks of `Parse` -/

theorem parseUpdate.init_beforeClose (s : UpdateBlock) : (parseUpdate.init s).beforeClose :=
  ⟨rfl, Or.inr ⟨s.items, rfl⟩⟩

theorem parseUpdate.handOver_beforeClose (st : parseUpdate.State) (h : st.beforeClose) :
    (parseUpdate.handOver st).beforeClose := by
  obtain ⟨hc, hpc⟩ := h
  unfold parseUpdate.handOver
  split
  · split
    · exact ⟨hc, Or.inr ⟨_, rfl⟩⟩
    · exact ⟨hc, hpc⟩
  · exact ⟨hc, hpc⟩

theorem parseUpdate.closeJobs_beforeClose (st : parseUpdate.State) (h : st.beforeClose) :
    (parseUpdate.closeJobs st).beforeClose := by
  obtain ⟨hc, hpc⟩ := h
  unfold parseUpdate.closeJobs
  split
  · exact ⟨hc, Or.inl rfl⟩
  · exact ⟨hc, hpc⟩

theorem parseUpdate.work_beforeClose (st : parseUpdate.State) (k : Nat) (h : st.beforeClose) :
    (parseUpdate.work st k).beforeClose := by
  obtain ⟨hc, hpc⟩ := h
  unfold parseUpdate.work
  split
  · exact ⟨hc, hpc⟩
  · split
    · exact ⟨hc, hpc⟩
    · rw [hc]
      simp only [Bool.false_eq_true, if_false]
      split
      · exact ⟨rfl, hpc⟩
      · exact ⟨hc, hpc⟩
    · exact ⟨hc, hpc⟩

theorem parseUpdate.exit_beforeClose (st : parseUpdate.State) (h : st.beforeClose) :
    (parseUpdate.exit st).beforeClose := by
  obtain ⟨hc, hpc⟩ := h
  unfold parseUpdate.exit
  split
  · exact ⟨hc, hpc⟩
  · exact ⟨hc, hpc⟩

theorem parseUpdate.receive_beforeClose (st : parseUpdate.State) (h : st.beforeClose) :
    (parseUpdate.receive st).beforeClose := by
  obtain ⟨hc, hpc⟩ := h
  unfold parseUpdate.receive
  split
  · rename_i hr _
    exact ⟨hc, Or.inl hr⟩
  · exact ⟨hc, hpc⟩

theorem parseUpdate.endRange_beforeClose (st : parseUpdate.State) (h : st.beforeClose) :
    (parseUpdate.endRange st).beforeClose := by
  obtain ⟨hc, hpc⟩ := h
  unfold parseUpdate.endRange
  split
  · rw [hc]
    simp only [Bool.and_false, Bool.false_eq_true, if_false]
    exact ⟨hc, hpc⟩
  · exact ⟨hc, hpc⟩

theorem parseUpdate.closeItems_beforeClose (st : parseUpdate.State) (h : st.beforeClose) :
    (parseUpdate.closeItems st).beforeClose := by
  obtain ⟨hc, hpc⟩ := h
  unfold parseUpdate.closeItems
  split
  · rename_i hcl
    rcases hpc with hr | ⟨rest, hs⟩
    · rw [hr] at hcl; exact absurd hcl (by simp)
    · rw [hs] at hcl; exact absurd hcl (by simp)
  · exact ⟨hc, hpc⟩

theorem parseUpdate.deliver_beforeClose (st : parseUpdate.State) (h : st.beforeClose) :
    (parseUpdate.deliver st).beforeClose := by
  obtain ⟨hc, hpc⟩ := h
  unfold parseUpdate.deliver
  split
  · rename_i hcl
    rcases hpc with hr | ⟨rest, hs⟩
    · rw [hr] at hcl; exact absurd hcl (by simp)
    · rw [hs] at hcl; exact absurd hcl (by simp)
  · exact ⟨hc, hpc⟩

theorem parseUpdate.step_beforeClose (st : parseUpdate.State) (a : parseUpdate.Action)
    (h : st.beforeClose) : (parseUpdate.step st a).beforeClose := by
  unfold parseUpdate.step
  split
  · exact h
  · cases a with
    | handOver => exact parseUpdate.handOver_beforeClose st h
    | closeJobs => exact parseUpdate.closeJobs_beforeClose st h
    | work k => exact parseUpdate.work_beforeClose st k h
    | exit => exact parseUpdate.exit_beforeClose st h
    | receive => exact parseUpdate.receive_beforeClose st h
    | endRange => exact parseUpdate.endRange_beforeClose st h
    | closeItems => exact parseUpdate.closeItems_beforeClose st h
    | deliver => exact parseUpdate.deliver_beforeClose st h

theorem parseUpdate.run_beforeClose (st : parseUpdate.State)
    (schedule : List parseUpdate.Action) (h : st.beforeClose) :
    (parseUpdate.run st schedule).beforeClose := by
  induction schedule generalizing st with
  | nil => exact h
  | cons a schedule ih => exact ih _ (parseUpdate.step_beforeClose st a h)

theorem parseUpdate.beforeClose_not_done (st : parseUpdate.State) (h : st.beforeClose) :
    st.pc ≠ parseUpdate.Pc.closing ∧ st.pc ≠ parseUpdate.Pc.delivering ∧
      st.pc ≠ parseUpdate.Pc.done := by
  rcases h.2 with hr | ⟨rest, hs⟩
  · rw [hr]; exact ⟨by simp, by simp, by simp⟩
  · rw [hs]; exact ⟨by simp, by simp, by simp⟩

theorem Parse.step_tasks (config : ParserConfig) (st : Parse.State)
    (ia : Nat × parseUpdate.Action)
    (h : st.tasks ≠ [] ∧ ∀ t ∈ st.tasks, t.2.beforeClose) :
    (Parse.step config st ia).tasks ≠ [] ∧
      ∀ t ∈ (Parse.step config st ia).tasks, t.2.beforeClose := by
  unfold Parse.step
  split
  · exact h
  · split
    · exact h
    · rename_i s t hget
      have ht : (s, t) ∈ st.tasks := List.get?_mem hget
      constructor
      · intro hnil
        have hlen := congrArg List.length hnil
        simp only [List.length_set, List.length_nil] at hlen
        exact h.1 (List.length_eq_zero.mp hlen)
      · intro u hu
        rcases List.mem_or_eq_of_mem_set hu with hmem | heq
        · exact h.2 u hmem
        · rw [heq]
          exact parseUpdate.step_beforeClose t ia.2 (h.2 (s, t) ht)

theorem Parse.run_tasks (config : ParserConfig) (st : Parse.State)
    (schedule : List (Nat × parseUpdate.Action))
    (h : st.tasks ≠ [] ∧ ∀ t ∈ st.tasks, t.2.beforeClose) :
    (schedule.foldl (Parse.step config) st).tasks ≠ [] ∧
      ∀ t ∈ (schedule.foldl (Parse.step config) st).tasks, t.2.beforeClose := by
  induction schedule generalizing st with
  | nil => exact h
  | cons ia schedule ih => exact ih _ (Parse.step_tasks config st ia h)

theorem Parse.waitOver_false (st : Parse.State)
    (h : st.tasks ≠ [] ∧ ∀ t ∈ st.tasks, t.2.beforeClose) : Parse.waitOver st = false := by
  obtain ⟨hne, hall⟩ := h
  cases htasks : st.tasks with
  | nil => exact absurd htasks hne
  | cons t rest =>
    have ht := (parseUpdate.beforeClose_not_done t.2 (hall t (by rw [htasks]; simp))).2.2
    simp [Parse.waitOver, htasks, ht]

theorem Parse.run_no_tasks (config : ParserConfig)
    (schedule : List (Nat × parseUpdate.Action)) :
    schedule.foldl (Parse.step config) (Parse.start []) = Parse.start [] := by
  induction schedule with
  | nil => rfl
  | cons ia schedule ih =>
    rw [List.foldl_cons]
    have hstep : Parse.step config (Parse.start []) ia = Parse.start [] := by
      simp [Parse.step, Parse.start]
    rw [hstep, ih]

/-! ## Lemmas on the items of a task -/

theorem parseUpdate.records_append (a b : List Fragment) :
    parseUpdate.records (a ++ b) = parseUpdate.records a ++ parseUpdate.records b := by
  simp [parseUpdate.records, List.filterMap_append]

theorem parseUpdate.records_cons (j : Fragment) (rest : List Fragment) :
    parseUpdate.records (j :: rest) = parseUpdate.records [j] ++ parseUpdate.records rest :=
  parseUpdate.records_append [j] rest

theorem parseUpdate.records_sent (j : Fragment) (item : LegendaryItem)
    (h : parseLegendaryItemWorker.step j = WorkerStep.sent item) :
    parseUpdate.records [j] = [item] := by
  simp [parseUpdate.records, h]

theorem parseUpdate.records_dropped (j : Fragment)
    (h : parseLegendaryItemWorker.step j = WorkerStep.dropped) :
    parseUpdate.records [j] = [] := by
  simp [parseUpdate.records, h]

theorem perm_cons_eraseIdx {α : Type} (l : List α) (k : Nat) (x : α)
    (h : l.get? k = some x) : l.Perm (x :: l.eraseIdx k) := by
  induction l generalizing k with
  | nil => simp at h
  | cons y l ih =>
    cases k with
    | zero =>
      simp only [List.get?_cons_zero, Option.some.injEq] at h
      subst h
      rw [List.eraseIdx_cons_zero]
    | succ k =>
      simp only [List.get?_cons_succ] at h
      rw [List.eraseIdx_cons_succ]
      exact ((ih k h).cons y).trans (List.Perm.swap x y _)

theorem parseUpdate.records_perm (a b : List Fragment) (h : a.Perm b) :
    (parseUpdate.records a).Perm (parseUpdate.records b) :=
  List.Perm.filterMap _ h

theorem parseUpdate.records_eraseIdx (held : List Fragment) (k : Nat) (j : Fragment)
    (h : held.get? k = some j) :
    (parseUpdate.records held).Perm
      (parseUpdate.records [j] ++ parseUpdate.records (held.eraseIdx k)) := by
  rw [← parseUpdate.records_cons]
  exact parseUpdate.records_perm _ _ (perm_cons_eraseIdx held k j h)

theorem parseUpdate.handOver_inFlight (st : parseUpdate.State) :
    (parseUpdate.handOver st).inFlight = st.inFlight := by
  unfold parseUpdate.handOver
  split
  · rename_i j rest hpc
    split
    · simp only [parseUpdate.State.inFlight, parseUpdate.State.pending, hpc,
        parseUpdate.records_append, parseUpdate.records_cons j rest, List.append_assoc]
    · rfl
  · rfl

theorem parseUpdate.closeJobs_inFlight (st : parseUpdate.State) :
    (parseUpdate.closeJobs st).inFlight = st.inFlight := by
  unfold parseUpdate.closeJobs
  split
  · rename_i hpc
    simp only [parseUpdate.State.inFlight, parseUpdate.State.pending, hpc]
  · rfl

theorem parseUpdate.work_inFlight (st : parseUpdate.State) (k : Nat) :
    (parseUpdate.work st k).inFlight.Perm st.inFlight := by
  unfold parseUpdate.work
  split
  · exact List.Perm.refl _
  · rename_i j hget
    have hperm := parseUpdate.records_eraseIdx st.held k j hget
    split
    · rename_i hstep
      rw [parseUpdate.records_dropped j hstep, List.nil_append] at hperm
      simp only [parseUpdate.State.inFlight, parseUpdate.State.pending]
      exact List.Perm.append_left _
        (List.Perm.append_left _ (List.Perm.append_right _ hperm.symm))
    · rename_i item hstep
      rw [parseUpdate.records_sent j item hstep] at hperm
      split
      · exact List.Perm.refl _
      · split
        · simp only [parseUpdate.State.inFlight, parseUpdate.State.pending, List.append_assoc]
          refine List.Perm.append_left _ (List.Perm.append_left _ ?_)
          rw [← List.append_assoc]
          exact List.Perm.append_right _ hperm.symm
        · exact List.Perm.refl _
    · exact List.Perm.refl _

theorem parseUpdate.exit_inFlight (st : parseUpdate.State) :
    (parseUpdate.exit st).inFlight = st.inFlight := by
  unfold parseUpdate.exit
  split
  · rfl
  · rfl

theorem parseUpdate.receive_inFlight (st : parseUpdate.State) :
    (parseUpdate.receive st).inFlight = st.inFlight := by
  unfold parseUpdate.receive
  split
  · rename_i item queue hpc hchan
    simp [parseUpdate.State.inFlight, parseUpdate.State.pending, hpc, hchan]
  · rfl

theorem parseUpdate.endRange_inFlight (st : parseUpdate.State) :
    (parseUpdate.endRange st).inFlight = st.inFlight := by
  unfold parseUpdate.endRange
  split
  · rename_i hpc
    split
    · simp only [parseUpdate.State.inFlight, parseUpdate.State.pending, hpc]
    · rfl
  · rfl

theorem parseUpdate.closeItems_inFlight (st : parseUpdate.State) :
    (parseUpdate.closeItems st).inFlight = st.inFlight := by
  unfold parseUpdate.closeItems
  split
  · rename_i hpc
    simp only [parseUpdate.State.inFlight, parseUpdate.State.pending, hpc]
  · rfl

theorem parseUpdate.deliver_inFlight (st : parseUpdate.State) :
    (parseUpdate.deliver st).inFlight = st.inFlight := by
  unfold parseUpdate.deliver
  split
  · rename_i hpc
    simp only [parseUpdate.State.inFlight, parseUpdate.State.pending, hpc]
  · rfl

theorem parseUpdate.step_of_panicked (st : parseUpdate.State) (a : parseUpdate.Action)
    (h : st.panicked = true) : parseUpdate.step st a = st := by
  simp [parseUpdate.step, h]

theorem parseUpdate.step_inFlight (st : parseUpdate.State) (a : parseUpdate.Action) :
    (parseUpdate.step st a).inFlight.Perm st.inFlight := by
  by_cases hp : st.panicked = true
  · rw [parseUpdate.step_of_panicked st a hp]
  · unfold parseUpdate.step
    rw [if_neg hp]
    cases a with
    | handOver => exact (parseUpdate.handOver_inFlight st) ▸ List.Perm.refl _
    | closeJobs => exact (parseUpdate.closeJobs_inFlight st) ▸ List.Perm.refl _
    | work k => exact parseUpdate.work_inFlight st k
    | exit => exact (parseUpdate.exit_inFlight st) ▸ List.Perm.refl _
    | receive => exact (parseUpdate.receive_inFlight st) ▸ List.Perm.refl _
    | endRange => exact (parseUpdate.endRange_inFlight st) ▸ List.Perm.refl _
    | closeItems => exact (parseUpdate.closeItems_inFlight st) ▸ List.Perm.refl _
    | deliver => exact (parseUpdate.deliver_inFlight st) ▸ List.Perm.refl _

theorem parseUpdate.run_inFlight (st : parseUpdate.State)
    (schedule : List parseUpdate.Action) :
    (parseUpdate.run st schedule).inFlight.Perm st.inFlight := by
  induction schedule generalizing st with
  | nil => exact List.Perm.refl _
  | cons a schedule ih => exact (ih (parseUpdate.step st a)).trans (parseUpdate.step_inFlight st a)

theorem parseUpdate.inFlight_init (s : UpdateBlock) :
    (parseUpdate.init s).inFlight = parseUpdate.records s.items := by
  simp [parseUpdate.State.inFlight, parseUpdate.State.pending, parseUpdate.init,
    parseUpdate.records]

theorem parseUpdate.collected_perm (s : UpdateBlock) (schedule : List parseUpdate.Action)
    (hpc : (parseUpdate.run (parseUpdate.init s) schedule).pc = parseUpdate.Pc.ranging)
    (hheld : (parseUpdate.run (parseUpdate.init s) schedule).held = [])
    (hchan : (parseUpdate.run (parseUpdate.init s) schedule).itemsChan = []) :
    (parseUpdate.run (parseUpdate.init s) schedule).legendaryItems.Perm
      (parseUpdate.records s.items) := by
  have h := parseUpdate.run_inFlight (parseUpdate.init s) schedule
  rw [parseUpdate.inFlight_init] at h
  simpa [parseUpdate.State.inFlight, parseUpdate.State.pending, hpc, hheld, hchan,
    parseUpdate.records] using h

/-! ## Lemmas on the jobs that panic -/

theorem parseUpdate.work_jobsLeft (st : parseUpdate.State) (k : Nat) :
    ((parseUpdate.work st k).jobsLeft.filter parseLegendaryItemWorker.panics).Perm
      (st.jobsLeft.filter parseLegendaryItemWorker.panics) := by
  unfold parseUpdate.work
  split
  · exact List.Perm.refl _
  · rename_i j hget
    have hperm := (perm_cons_eraseIdx st.held k j hget).filter
      parseLegendaryItemWorker.panics
    have herase : ∀ w, parseLegendaryItemWorker.step j = w → w ≠ WorkerStep.panicked →
        ((st.held.eraseIdx k ++ st.pending).filter parseLegendaryItemWorker.panics).Perm
          ((st.held ++ st.pending).filter parseLegendaryItemWorker.panics) := by
      intro w hw hne
      have hj : parseLegendaryItemWorker.panics j = false := by
        simp [parseLegendaryItemWorker.panics, hw, hne]
      rw [List.filter_cons, hj] at hperm
      rw [List.filter_append, List.filter_append]
      exact List.Perm.append_right _ hperm.symm
    split
    · rename_i hstep
      exact herase _ hstep (by simp)
    · rename_i item hstep
      split
      · exact List.Perm.refl _
      · split
        · exact herase _ hstep (by simp)
        · exact List.Perm.refl _
    · exact List.Perm.refl _

theorem parseUpdate.step_jobsLeft (st : parseUpdate.State) (a : parseUpdate.Action) :
    ((parseUpdate.step st a).jobsLeft.filter parseLegendaryItemWorker.panics).Perm
      (st.jobsLeft.filter parseLegendaryItemWorker.panics) := by
  by_cases hp : st.panicked = true
  · rw [parseUpdate.step_of_panicked st a hp]
  · unfold parseUpdate.step
    rw [if_neg hp]
    cases a with
    | handOver =>
      show ((parseUpdate.handOver st).jobsLeft.filter _).Perm _
      unfold parseUpdate.handOver
      split
      · rename_i j rest hpc
        split
        · simp [parseUpdate.State.jobsLeft, parseUpdate.State.pending, hpc]
        · exact List.Perm.refl _
      · exact List.Perm.refl _
    | closeJobs =>
      show ((parseUpdate.closeJobs st).jobsLeft.filter _).Perm _
      unfold parseUpdate.closeJobs
      split
      · rename_i hpc
        simp [parseUpdate.State.jobsLeft, parseUpdate.State.pending, hpc]
      · exact List.Perm.refl _
    | work k => exact parseUpdate.work_jobsLeft st k
    | exit =>
      show ((parseUpdate.exit st).jobsLeft.filter _).Perm _
      unfold parseUpdate.exit
      split
      · exact List.Perm.refl _
      · exact List.Perm.refl _
    | receive =>
      show ((parseUpdate.receive st).jobsLeft.filter _).Perm _
      unfold parseUpdate.receive
      split
      · rename_i item queue hpc hchan
        simp [parseUpdate.State.jobsLeft, parseUpdate.State.pending, hpc]
      · exact List.Perm.refl _
    | endRange =>
      show ((parseUpdate.endRange st).jobsLeft.filter _).Perm _
      unfold parseUpdate.endRange
      split
      · rename_i hpc
        split
        · simp [parseUpdate.State.jobsLeft, parseUpdate.State.pending, hpc]
        · exact List.Perm.refl _
      · exact List.Perm.refl _
    | closeItems =>
      show ((parseUpdate.closeItems st).jobsLeft.filter _).Perm _
      unfold parseUpdate.closeItems
      split
      · rename_i hpc
        simp [parseUpdate.State.jobsLeft, parseUpdate.State.pending, hpc]
      · exact List.Perm.refl _
    | deliver =>
      show ((parseUpdate.deliver st).jobsLeft.filter _).Perm _
      unfold parseUpdate.deliver
      split
      · rename_i hpc
        simp [parseUpdate.State.jobsLeft, parseUpdate.State.pending, hpc]
      · exact List.Perm.refl _

theorem parseUpdate.run_jobsLeft (st : parseUpdate.State) (schedule : List parseUpdate.Action) :
    ((parseUpdate.run st schedule).jobsLeft.filter parseLegendaryItemWorker.panics).Perm
      (st.jobsLeft.filter parseLegendaryItemWorker.panics) := by
  induction schedule generalizing st with
  | nil => exact List.Perm.refl _
  | cons a schedule ih => exact (ih (parseUpdate.step st a)).trans (parseUpdate.step_jobsLeft st a)

theorem parseUpdate.collected_no_panics (s : UpdateBlock) (schedule : List parseUpdate.Action)
    (hpc : (parseUpdate.run (parseUpdate.init s) schedule).pc = parseUpdate.Pc.ranging)
    (hheld : (parseUpdate.run (parseUpdate.init s) schedule).held = []) :
    ∀ j ∈ s.items, parseLegendaryItemWorker.step j ≠ WorkerStep.panicked := by
  have h := parseUpdate.run_jobsLeft (parseUpdate.init s) schedule
  have hinit : (parseUpdate.init s).jobsLeft = s.items := by
    simp [parseUpdate.State.jobsLeft, parseUpdate.State.pending, parseUpdate.init]
  have hend : (parseUpdate.run (parseUpdate.init s) schedule).jobsLeft = [] := by
    simp [parseUpdate.State.jobsLeft, parseUpdate.State.pending, hpc, hheld]
  rw [hinit, hend, List.filter_nil] at h
  have hnil := List.Perm.nil_eq h
  intro j hj hstep
  have hmem : j ∈ s.items.filter parseLegendaryItemWorker.panics :=
    List.mem_filter.mpr ⟨hj, by simp [parseLegendaryItemWorker.panics, hstep]⟩
  rw [← hnil] at hmem
  exact absurd hmem (List.not_mem_nil j)

theorem parseUpdate.work_panicked (st : parseUpdate.State) (k : Nat)
    (hb : st.beforeClose) (hp : (parseUpdate.work st k).panicked = true) :
    st.panicked = true ∨ ∃ j ∈ (parseUpdate.work st k).held,
      parseLegendaryItemWorker.panics j = true := by
  unfold parseUpdate.work at hp ⊢
  split at hp
  · exact Or.inl hp
  · rename_i j hget
    revert hp
    split
    · intro hp; exact Or.inl hp
    · rw [hb.1]
      simp only [Bool.false_eq_true, if_false]
      split
      · intro hp; exact Or.inl hp
      · intro hp; exact Or.inl hp
    · rename_i hstep
      intro _
      exact Or.inr ⟨j, List.get?_mem hget, by simp [parseLegendaryItemWorker.panics, hstep]⟩

theorem parseUpdate.handOver_panicked (st : parseUpdate.State) :
    (parseUpdate.handOver st).panicked = st.panicked := by
  unfold parseUpdate.handOver
  split
  · split
    · rfl
    · rfl
  · rfl

theorem parseUpdate.closeJobs_panicked (st : parseUpdate.State) :
    (parseUpdate.closeJobs st).panicked = st.panicked := by
  unfold parseUpdate.closeJobs
  split
  · rfl
  · rfl

theorem parseUpdate.exit_panicked (st : parseUpdate.State) :
    (parseUpdate.exit st).panicked = st.panicked := by
  unfold parseUpdate.exit
  split
  · rfl
  · rfl

theorem parseUpdate.receive_panicked (st : parseUpdate.State) :
    (parseUpdate.receive st).panicked = st.panicked := by
  unfold parseUpdate.receive
  split
  · rfl
  · rfl

theorem parseUpdate.endRange_panicked (st : parseUpdate.State) :
    (parseUpdate.endRange st).panicked = st.panicked := by
  unfold parseUpdate.endRange
  split
  · split
    · rfl
    · rfl
  · rfl

theorem parseUpdate.closeItems_panicked (st : parseUpdate.State) :
    (parseUpdate.closeItems st).panicked = st.panicked := by
  unfold parseUpdate.closeItems
  split
  · rfl
  · rfl

theorem parseUpdate.deliver_panicked (st : parseUpdate.State) :
    (parseUpdate.deliver st).panicked = st.panicked := by
  unfold parseUpdate.deliver
  split
  · rfl
  · rfl

theorem parseUpdate.step_panicked (st : parseUpdate.State) (a : parseUpdate.Action)
    (hb : st.beforeClose)
    (hI : st.panicked = true → ∃ j ∈ st.held, parseLegendaryItemWorker.panics j = true)
    (hp : (parseUpdate.step st a).panicked = true) :
    ∃ j ∈ (parseUpdate.step st a).held, parseLegendaryItemWorker.panics j = true := by
  by_cases hst : st.panicked = true
  · rw [parseUpdate.step_of_panicked st a hst]
    exact hI hst
  · revert hp
    unfold parseUpdate.step
    rw [if_neg hst]
    cases a with
    | handOver => exact fun hp => absurd ((parseUpdate.handOver_panicked st) ▸ hp) hst
    | closeJobs => exact fun hp => absurd ((parseUpdate.closeJobs_panicked st) ▸ hp) hst
    | work k =>
      intro hp
      rcases parseUpdate.work_panicked st k hb hp with h | h
      · exact absurd h hst
      · exact h
    | exit => exact fun hp => absurd ((parseUpdate.exit_panicked st) ▸ hp) hst
    | receive => exact fun hp => absurd ((parseUpdate.receive_panicked st) ▸ hp) hst
    | endRange => exact fun hp => absurd ((parseUpdate.endRange_panicked st) ▸ hp) hst
    | closeItems => exact fun hp => absurd ((parseUpdate.closeItems_panicked st) ▸ hp) hst
    | deliver => exact fun hp => absurd ((parseUpdate.deliver_panicked st) ▸ hp) hst

theorem parseUpdate.run_panicked (st : parseUpdate.State) (schedule : List parseUpdate.Action)
    (hb : st.beforeClose)
    (hI : st.panicked = true → ∃ j ∈ st.held, parseLegendaryItemWorker.panics j = true)
    (hp : (parseUpdate.run st schedule).panicked = true) :
    ∃ j ∈ (parseUpdate.run st schedule).held, parseLegendaryItemWorker.panics j = true := by
  induction schedule generalizing st with
  | nil => exact hI hp
  | cons a schedule ih =>
    exact ih (parseUpdate.step st a) (parseUpdate.step_beforeClose st a hb)
      (parseUpdate.step_panicked st a hb hI) hp

theorem parseUpdate.collected_alive (s : UpdateBlock) (schedule : List parseUpdate.Action)
    (hheld : (parseUpdate.run (parseUpdate.init s) schedule).held = []) :
    (parseUpdate.run (parseUpdate.init s) schedule).panicked = false := by
  cases hp : (parseUpdate.run (parseUpdate.init s) schedule).panicked with
  | false => rfl
  | true =>
    obtain ⟨j, hj, _⟩ := parseUpdate.run_panicked (parseUpdate.init s) schedule
      (parseUpdate.init_beforeClose s) (fun h => absurd h (by simp [parseUpdate.init])) hp
    rw [hheld] at hj
    exact absurd hj (List.not_mem_nil j)

theorem parseLegendaryItemWorker.step_dropped_iff (j : Fragment) :
    parseLegendaryItemWorker.step j = WorkerStep.dropped ↔
      (parseItemQuality j.cls == "") = true := by
  unfold parseLegendaryItemWorker.step
  simp only []
  split
  · rename_i hq
    simp [hq]
  · rename_i hq
    constructor
    · intro h
      split at h
      · simp at h
      · split at h <;> simp at h
    · intro h
      exact absurd h hq

theorem isLegendaryOrSet_eq (j : Fragment) :
    isLegendaryOrSet j = !(parseItemQuality j.cls == "") := by
  unfold isLegendaryOrSet
  rw [parseItemQuality_eq]
  split_ifs <;> decide

theorem filterItems.condition_default (item : LegendaryItem) :
    filterItems.condition NewParseConfig item = true := by
  have h1 : (RarityNonAncient == RarityAncient) = false := by decide
  have h2 : (RarityNonAncient == RarityPrimal) = false := by decide
  have h3 : (QualityAll != QualityAll) = false := by decide
  simp [filterItems.condition, NewParseConfig, h1, h2, h3]

theorem passesFilter_isLegendaryOrSet (config : ParserConfig) (j : Fragment)
    (h : passesFilter config j = true) : isLegendaryOrSet j = true := by
  rw [isLegendaryOrSet_eq]
  cases hq : (parseItemQuality j.cls == "") with
  | false => rfl
  | true =>
    have hd := (parseLegendaryItemWorker.step_dropped_iff j).mpr hq
    simp [passesFilter, hd] at h

theorem parseUpdate.records_filter_length (config : ParserConfig) (items : List Fragment) :
    ((parseUpdate.records items).filter (filterItems.condition config)).length =
      (items.filter (fun j => isLegendaryOrSet j && passesFilter config j)).length := by
  induction items with
  | nil => rfl
  | cons j items ih =>
    rw [parseUpdate.records_cons, List.filter_append, List.length_append, ih,
      List.filter_cons]
    cases hstep : parseLegendaryItemWorker.step j with
    | dropped =>
      have hp : passesFilter config j = false := by simp [passesFilter, hstep]
      simp [parseUpdate.records, hstep, hp]
    | panicked =>
      have hp : passesFilter config j = false := by simp [passesFilter, hstep]
      simp [parseUpdate.records, hstep, hp]
    | sent item =>
      have hp : passesFilter config j = filterItems.condition config item := by
        simp [passesFilter, hstep]
      cases hc : filterItems.condition config item with
      | false =>
        rw [hc] at hp
        simp [parseUpdate.records, hstep, hp, hc]
      | true =>
        rw [hc] at hp
        have hq := passesFilter_isLegendaryOrSet config j hp
        simp [parseUpdate.records, hstep, hp, hc, hq]
        omega

theorem parseUpdate.records_length (items : List Fragment)
    (h : ∀ j ∈ items, parseLegendaryItemWorker.step j ≠ WorkerStep.panicked) :
    (parseUpdate.records items).length = (items.filter isLegendaryOrSet).length := by
  induction items with
  | nil => rfl
  | cons j items ih =>
    have hj := h j (List.mem_cons_self j items)
    have hrest := ih (fun x hx => h x (List.mem_cons_of_mem j hx))
    rw [parseUpdate.records_cons, List.length_append, hrest, List.filter_cons,
      isLegendaryOrSet_eq]
    cases hstep : parseLegendaryItemWorker.step j with
    | dropped =>
      have hq := (parseLegendaryItemWorker.step_dropped_iff j).mp hstep
      simp [parseUpdate.records, hstep, hq]
    | panicked => exact absurd hstep hj
    | sent item =>
      have hq : (parseItemQuality j.cls == "") = false := by
        cases hq : (parseItemQuality j.cls == "") with
        | false => rfl
        | true =>
          rw [(parseLegendaryItemWorker.step_dropped_iff j).mpr hq] at hstep
          exact absurd hstep (by simp)
      simp [parseUpdate.records, hstep, hq]
      omega

/-! ## Lemmas on the gates of `filterItems` -/

theorem filter_sublist_filter {α : Type} (p q : α → Bool) (l : List α)
    (h : ∀ a, p a = true → q a = true) : (l.filter p).Sublist (l.filter q) := by
  induction l with
  | nil => exact List.Sublist.slnil
  | cons a l ih =>
    by_cases hp : p a = true
    · rw [List.filter_cons_of_pos hp, List.filter_cons_of_pos (h a hp)]
      exact ih.cons₂ a
    · rw [List.filter_cons_of_neg hp]
      by_cases hq : q a = true
      · rw [List.filter_cons_of_pos hq]
        exact ih.cons a
      · rw [List.filter_cons_of_neg hq]
        exact ih

theorem filterItems.condition_primal (config : ParserConfig) (item : LegendaryItem) :
    filterItems.condition { config with RarityLevel := RarityPrimal } item =
      (item.Rarity == RarityPrimal &&
        filterItems.condition { config with RarityLevel := RarityNonAncient } item) := by
  have h1 : (RarityPrimal == RarityAncient) = false := by decide
  have h2 : (RarityPrimal == RarityPrimal) = true := by decide
  have h3 : (RarityNonAncient == RarityAncient) = false := by decide
  have h4 : (RarityNonAncient == RarityPrimal) = false := by decide
  simp only [filterItems.condition, h1, h2, h3, h4, Bool.false_and, Bool.true_and,
    Bool.false_or, Bool.or_false, Bool.false_eq_true, if_false, bne]
  cases item.Rarity == RarityPrimal <;> simp

theorem filterItems.condition_ancient (config : ParserConfig) (item : LegendaryItem) :
    filterItems.condition { config with RarityLevel := RarityAncient } item =
      (!(item.Rarity == RarityNonAncient) &&
        filterItems.condition { config with RarityLevel := RarityNonAncient } item) := by
  have h1 : (RarityAncient == RarityAncient) = true := by decide
  have h2 : (RarityAncient == RarityPrimal) = false := by decide
  have h3 : (RarityNonAncient == RarityAncient) = false := by decide
  have h4 : (RarityNonAncient == RarityPrimal) = false := by decide
  simp only [filterItems.condition, h1, h2, h3, h4, Bool.false_and, Bool.true_and,
    Bool.false_or, Bool.or_false, Bool.false_eq_true, if_false, bne]
  cases item.Rarity == RarityNonAncient <;> simp

theorem filterItems.condition_primal_ancient (config : ParserConfig) (item : LegendaryItem)
    (h : filterItems.condition { config with RarityLevel := RarityPrimal } item = true) :
    filterItems.condition { config with RarityLevel := RarityAncient } item = true := by
  rw [filterItems.condition_primal, Bool.and_eq_true] at h
  rw [filterItems.condition_ancient, Bool.and_eq_true]
  refine ⟨?_, h.2⟩
  have hr : item.Rarity = RarityPrimal := by simpa using h.1
  rw [hr]
  decide

theorem filterItems.condition_ancient_nonAncient (config : ParserConfig) (item : LegendaryItem)
    (h : filterItems.condition { config with RarityLevel := RarityAncient } item = true) :
    filterItems.condition { config with RarityLevel := RarityNonAncient } item = true := by
  rw [filterItems.condition_ancient, Bool.and_eq_true] at h
  exact h.2

/-! ## Lemmas on the failures of `parseDestination` and `parseItemName` -/

theorem destinationRegex.matchAt_eq_none_iff (s : List Char) :
    destinationRegex.matchAt s = none ↔ colonSpaceLetterAt s 0 = false := by
  unfold colonSpaceLetterAt
  rw [List.drop_zero]
  rcases s with _ | ⟨c, _ | ⟨w, _ | ⟨l, rest⟩⟩⟩ <;> simp [destinationRegex.matchAt]

theorem destinationRegex.matchAt_length (s : List Char) (m : List (List Char))
    (h : destinationRegex.matchAt s = some m) : m.length = 2 := by
  unfold destinationRegex.matchAt at h
  split at h
  · split at h
    · rw [← Option.some.inj h]; rfl
    · exact absurd h (by simp)
  · exact absurd h (by simp)

theorem destinationRegex.FindStringSubmatch_length (s : List Char) (m : List (List Char))
    (h : destinationRegex.FindStringSubmatch s = some m) : m.length = 2 := by
  induction s with
  | nil => exact absurd h (by simp [destinationRegex.FindStringSubmatch])
  | cons c cs ih =>
    unfold destinationRegex.FindStringSubmatch at h
    split at h
    · rename_i m1 hm
      rw [← Option.some.inj h]
      exact destinationRegex.matchAt_length _ _ hm
    · exact ih h

theorem destinationRegex.FindStringSubmatch_eq_none_iff (s : List Char) :
    destinationRegex.FindStringSubmatch s = none ↔ ∀ i, colonSpaceLetterAt s i = false := by
  induction s with
  | nil => simp [destinationRegex.FindStringSubmatch, colonSpaceLetterAt]
  | cons c cs ih =>
    have hshift : ∀ i, colonSpaceLetterAt (c :: cs) (i + 1) = colonSpaceLetterAt cs i :=
      fun _ => rfl
    unfold destinationRegex.FindStringSubmatch
    split
    · rename_i m hm
      constructor
      · intro h; exact absurd h (by simp)
      · intro h
        have h0 := (destinationRegex.matchAt_eq_none_iff (c :: cs)).mpr (h 0)
        rw [hm] at h0
        exact absurd h0 (by simp)
    · rename_i hm
      rw [ih]
      constructor
      · intro h i
        cases i with
        | zero => exact (destinationRegex.matchAt_eq_none_iff (c :: cs)).mp hm
        | succ i => rw [hshift]; exact h i
      · intro h i
        rw [← hshift]; exact h (i + 1)

theorem parseDestination_eq_none_iff (raw : String) :
    parseDestination raw = none ↔ ∀ i, colonSpaceLetterAt raw.data i = false := by
  rw [← destinationRegex.FindStringSubmatch_eq_none_iff]
  unfold parseDestination
  cases hf : destinationRegex.FindStringSubmatch raw.data with
  | none => simp
  | some m =>
    have hlen := destinationRegex.FindStringSubmatch_length _ _ hf
    rcases m with _ | ⟨whole, _ | ⟨word, rest⟩⟩
    · simp at hlen
    · simp at hlen
    · simp only [List.get?_cons_succ, List.get?_cons_zero]
      constructor
      · intro h
        split_ifs at h
      · intro h
        exact absurd h (by simp)

theorem parseDestination_range (raw : String) (d : Destination)
    (h : parseDestination raw = some d) :
    d = DestinationSalvaged ∨ d = DestinationStashed ∨ d = DestinationSold ∨
      d = DestinationUnknown := by
  unfold parseDestination at h
  split at h
  · exact absurd h (by simp)
  · split at h
    · exact absurd h (by simp)
    · simp only at h
      split_ifs at h
      · exact Or.inl (Option.some.inj h).symm
      · exact Or.inr (Or.inl (Option.some.inj h).symm)
      · exact Or.inr (Or.inr (Or.inl (Option.some.inj h).symm))
      · exact Or.inr (Or.inr (Or.inr (Option.some.inj h).symm))

theorem strings.splitLoop_ne_nil (sep s : List Char) (skip : Nat) (cur : List Char) :
    strings.splitLoop sep s skip cur ≠ [] := by
  induction s generalizing skip cur with
  | nil => simp [strings.splitLoop]
  | cons c cs ih =>
    cases skip with
    | succ k =>
      rw [strings.splitLoop]
      exact ih k cur
    | zero =>
      rw [strings.splitLoop]
      split
      · simp
      · exact ih 0 (c :: cur)

theorem strings.splitLoop_two (s cur : List Char)
    (h : ∃ i, [']', ' '].isPrefixOf (s.drop i) = true) :
    2 ≤ (strings.splitLoop [']', ' '] s 0 cur).length := by
  induction s generalizing cur with
  | nil =>
    obtain ⟨i, hi⟩ := h
    simp at hi
  | cons c cs ih =>
    rw [strings.splitLoop]
    split
    · have hne := strings.splitLoop_ne_nil [']', ' '] cs ([']', ' '].length - 1) []
      rw [List.length_cons]
      have hpos := List.length_pos.mpr hne
      omega
    · rename_i hnot
      obtain ⟨i, hi⟩ := h
      cases i with
      | zero =>
        rw [List.drop_zero] at hi
        exact absurd hi hnot
      | succ i => exact ih (c :: cur) ⟨i, hi⟩

theorem parseItemName_eq_none_iff (raw : String) (rarity : Rarity) :
    parseItemName raw rarity = none ↔
      rarity ≠ RarityNonAncient ∧ ∀ i, [']', ' '].isPrefixOf (raw.data.drop i) = false := by
  unfold parseItemName
  by_cases hr : rarity = RarityNonAncient
  · have hb : (rarity != RarityNonAncient) = false := by simp [hr]
    simp [hb, hr]
  · have hb : (rarity != RarityNonAncient) = true := by simp [hr]
    rw [if_pos hb]
    constructor
    · intro h
      refine ⟨hr, ?_⟩
      by_contra hocc
      have hex : ∃ i, [']', ' '].isPrefixOf (raw.data.drop i) = true := by
        by_contra hno
        apply hocc
        intro i
        cases hi : [']', ' '].isPrefixOf (raw.data.drop i) with
        | false => rfl
        | true => exact absurd ⟨i, hi⟩ hno
      have hlen := strings.splitLoop_two raw.data [] hex
      have hget : ∃ name, (strings.Split raw.data [']', ' ']).get? 1 = some name := by
        unfold strings.Split
        rcases hsplit : strings.splitLoop [']', ' '] raw.data 0 [] with _ | ⟨a, _ | ⟨b, rest⟩⟩
        · rw [hsplit] at hlen; simp at hlen
        · rw [hsplit] at hlen; simp at hlen
        · exact ⟨b, rfl⟩
      obtain ⟨name, hname⟩ := hget
      rw [hname] at h
      exact absurd h (by simp)
    · intro h
      have hs : strings.Split raw.data [']', ' '] = [raw.data] := by
        unfold strings.Split
        rw [strings.splitLoop_no_sep _ _ _ h.2]
        rfl
      rw [hs]
      rfl

theorem parseItemRarity_of_first_tag (raw : String) (pre w rest : List Char)
    (hraw : raw.data = pre ++ '[' :: (w ++ ']' :: rest)) (hw : w ≠ [])
    (hletters : ∀ c ∈ w, reLetter c = true)
    (hfirst : ∀ i, i < pre.length → bracketTagAt raw.data i = false) :
    parseItemRarity raw =
      if w.map Char.toLower = "ancient".data then RarityAncient
      else if w.map Char.toLower = "primal".data then RarityPrimal
      else RarityNonAncient := by
  apply parseItemRarity_of_find raw w hletters
  rw [hraw] at hfirst ⊢
  rw [rarityRegex.FindString_skip pre _ hfirst, rarityRegex.FindString_tag w rest hw hletters]

/-! ## Lemmas on the worker's record -/

theorem parseLegendaryItemWorker.step_of_quality (j : Fragment)
    (hq : (parseItemQuality j.cls == "") = false) :
    parseLegendaryItemWorker.step j =
      match parseItemName (String.mk (strings.TrimSpace j.spanText.data))
          (parseItemRarity (String.mk (strings.TrimSpace j.spanText.data))) with
      | none => WorkerStep.panicked
      | some n =>
        match parseDestination j.text with
        | none => WorkerStep.panicked
        | some d =>
          WorkerStep.sent
            { Name := n
              Rarity := parseItemRarity (String.mk (strings.TrimSpace j.spanText.data))
              Quality := parseItemQuality j.cls
              IsIdentified := n == "unidentified"
              Destination := d
              Stats := parseItemStats j.content } := by
  unfold parseLegendaryItemWorker.step
  simp only [hq, Bool.false_eq_true, if_false]

theorem parseItemName_isSome_iff (raw : String) (rarity : Rarity) :
    (∃ n, parseItemName raw rarity = some n) ↔
      rarity = RarityNonAncient ∨ ∃ i, [']', ' '].isPrefixOf (raw.data.drop i) = true := by
  have hnone := parseItemName_eq_none_iff raw rarity
  constructor
  · rintro ⟨n, hn⟩
    by_contra hcon
    push_neg at hcon
    have h : parseItemName raw rarity = none :=
      hnone.mpr ⟨hcon.1, fun i => Bool.eq_false_iff.mpr (hcon.2 i)⟩
    rw [hn] at h
    exact absurd h (by simp)
  · intro h
    cases hp : parseItemName raw rarity with
    | some n => exact ⟨n, rfl⟩
    | none =>
      have hno := hnone.mp hp
      rcases h with hr | ⟨i, hi⟩
      · exact absurd hr hno.1
      · rw [hno.2 i] at hi
        exact absurd hi (by simp)

theorem parseDestination_isSome_iff (raw : String) :
    (∃ d, parseDestination raw = some d) ↔ ∃ i, colonSpaceLetterAt raw.data i = true := by
  have hnone := parseDestination_eq_none_iff raw
  constructor
  · rintro ⟨d, hd⟩
    by_contra hcon
    push_neg at hcon
    have h : parseDestination raw = none :=
      hnone.mpr (fun i => Bool.eq_false_iff.mpr (hcon i))
    rw [hd] at h
    exact absurd h (by simp)
  · rintro ⟨i, hi⟩
    cases hp : parseDestination raw with
    | some d => exact ⟨d, rfl⟩
    | none =>
      rw [hnone.mp hp i] at hi
      exact absurd hi (by simp)

/-! ## Theorems -/

/-- C1: whatever the order in which the updates arrived from the tasks, the list `Parse` builds
from them is in non-decreasing order of `ServerTimestamp` (no update is before an earlier one
of the list), and it holds exactly the updates that arrived. -/
theorem Parse_collect_sorted (arrived : List ServerUpdate) :
    (Parse.collect arrived).Pairwise
        (fun a b => a.ServerTimestamp.abs ≤ b.ServerTimestamp.abs) ∧
      (Parse.collect arrived).Pairwise
        (fun a b => b.ServerTimestamp.Before a.ServerTimestamp = false) ∧
      (Parse.collect arrived).Perm arrived := by
  have hsorted : (Parse.collect arrived).Pairwise
      (fun a b => a.ServerTimestamp.abs ≤ b.ServerTimestamp.abs) :=
    sort.Slice_ascending (fun u => u.ServerTimestamp.abs) arrived
  refine ⟨hsorted, hsorted.imp ?_, sort.Slice_perm _ arrived⟩
  intro a b hab
  simpa [Time.Before] using hab

/-- C2: an item is in the result of `filterItems` exactly when it is an item of the input and the
rarity gate, the quality gate and the destination gate all pass. -/
theorem filterItems_mem_iff (legendaries : List LegendaryItem) (config : ParserConfig)
    (item : LegendaryItem) :
    item ∈ filterItems legendaries config ↔
      item ∈ legendaries ∧
        ((config.RarityLevel ≠ RarityAncient ∨ item.Rarity ≠ RarityNonAncient) ∧
          (config.RarityLevel ≠ RarityPrimal ∨ item.Rarity = RarityPrimal)) ∧
        (config.Quality = QualityAll ∨ config.Quality = item.Quality) ∧
        (config.Destinations = [] ∨ item.Destination ∈ config.Destinations) := by
  unfold filterItems
  rw [filter_eq_list_filter, List.mem_filter]
  apply and_congr_right
  intro _
  have hlen : config.Destinations.length = 0 ↔ config.Destinations = [] :=
    List.length_eq_zero
  have hq : item.Quality = config.Quality ↔ config.Quality = item.Quality := eq_comm
  simp only [filterItems.condition, Bool.or_eq_true, Bool.and_eq_true, beq_iff_eq, bne_iff_ne,
    ne_eq, hlen, hq]
  split_ifs with h1 h2 h3
  · simp only [Bool.false_eq_true, false_iff]; tauto
  · simp only [Bool.false_eq_true, false_iff]; tauto
  · simp only [true_iff]; tauto
  · rw [contains_eq_true_iff]; tauto

/-- C3: the `item_destination` value of the query string is `1` for exactly `[Stashed]`, `2` for
exactly `[Salvaged]`, `4` for exactly `[Sold]`, and `All` when the destination list has zero or
more than one element; the rest of the string is the `ancient`, `item_quality` and `page`
segments. -/
theorem assignSearchParams_item_destination (config : ParserConfig) :
    (config.Destinations = [DestinationStashed] →
        assignSearchParams config = "/?item_destination=1&ancient=" ++
          (assignSearchParams.rarity config ++ "&item_quality=" ++
            assignSearchParams.quality config ++ "&page=" ++ toString config.Page)) ∧
      (config.Destinations = [DestinationSalvaged] →
        assignSearchParams config = "/?item_destination=2&ancient=" ++
          (assignSearchParams.rarity config ++ "&item_quality=" ++
            assignSearchParams.quality config ++ "&page=" ++ toString config.Page)) ∧
      (config.Destinations = [DestinationSold] →
        assignSearchParams config = "/?item_destination=4&ancient=" ++
          (assignSearchParams.rarity config ++ "&item_quality=" ++
            assignSearchParams.quality config ++ "&page=" ++ toString config.Page)) ∧
      (config.Destinations.length ≠ 1 →
        assignSearchParams config = "/?item_destination=All&ancient=" ++
          (assignSearchParams.rarity config ++ "&item_quality=" ++
            assignSearchParams.quality config ++ "&page=" ++ toString config.Page)) := by
  refine ⟨fun h => ?_, fun h => ?_, fun h => ?_, fun h => ?_⟩
  · simp only [assignSearchParams, assignSearchParams.destination, h, String.append_assoc]
    rfl
  · simp only [assignSearchParams, assignSearchParams.destination, h, String.append_assoc]
    rfl
  · simp only [assignSearchParams, assignSearchParams.destination, h, String.append_assoc]
    rfl
  · have hd : assignSearchParams.destination config = "All" := by
      unfold assignSearchParams.destination
      split
      · rename_i d hd; rw [hd] at h; exact absurd rfl h
      · rfl
    simp only [assignSearchParams, hd, String.append_assoc]
    rfl

/-- The four arms of C3 at concrete configurations. -/
theorem assignSearchParams_item_destination_witness :
    assignSearchParams ⟨[DestinationStashed], RarityNonAncient, QualityAll, 1⟩
        = "/?item_destination=1&ancient=0&item_quality=All&page=1" ∧
      assignSearchParams ⟨[DestinationSalvaged], RarityNonAncient, QualityNormal, 1⟩
        = "/?item_destination=2&ancient=0&item_quality=3&page=1" ∧
      assignSearchParams ⟨[DestinationSold], RarityAncient, QualitySet, 2⟩
        = "/?item_destination=4&ancient=1&item_quality=4&page=2" ∧
      assignSearchParams ⟨[DestinationSalvaged, DestinationSold], RarityNonAncient,
          QualityNormal, 1⟩
        = "/?item_destination=All&ancient=0&item_quality=3&page=1" ∧
      assignSearchParams ⟨[], RarityNonAncient, QualityAll, 1⟩
        = "/?item_destination=All&ancient=0&item_quality=All&page=1" :=
  ⟨(assignSearchParams_item_destination
      ⟨[DestinationStashed], RarityNonAncient, QualityAll, 1⟩).1 rfl,
    (assignSearchParams_item_destination
      ⟨[DestinationSalvaged], RarityNonAncient, QualityNormal, 1⟩).2.1 rfl,
    (assignSearchParams_item_destination
      ⟨[DestinationSold], RarityAncient, QualitySet, 2⟩).2.2.1 rfl,
    (assignSearchParams_item_destination
      ⟨[DestinationSalvaged, DestinationSold], RarityNonAncient, QualityNormal, 1⟩).2.2.2
        (by decide),
    (assignSearchParams_item_destination ⟨[], RarityNonAncient, QualityAll, 1⟩).2.2.2
        (by decide)⟩

/-- C4: the `ancient` value of the query string is empty for `RarityPrimal`, `1` for
`RarityAncient` and `0` for every other rarity value. -/
theorem assignSearchParams_ancient (config : ParserConfig) :
    (config.RarityLevel = RarityPrimal →
        assignSearchParams config = "/?item_destination=" ++
          assignSearchParams.destination config ++ "&ancient=" ++ "" ++ "&item_quality=" ++
          assignSearchParams.quality config ++ "&page=" ++ toString config.Page) ∧
      (config.RarityLevel = RarityAncient →
        assignSearchParams config = "/?item_destination=" ++
          assignSearchParams.destination config ++ "&ancient=" ++ "1" ++ "&item_quality=" ++
          assignSearchParams.quality config ++ "&page=" ++ toString config.Page) ∧
      (config.RarityLevel ≠ RarityPrimal → config.RarityLevel ≠ RarityAncient →
        assignSearchParams config = "/?item_destination=" ++
          assignSearchParams.destination config ++ "&ancient=" ++ "0" ++ "&item_quality=" ++
          assignSearchParams.quality config ++ "&page=" ++ toString config.Page) := by
  refine ⟨fun h => ?_, fun h => ?_, fun h1 h2 => ?_⟩
  · simp [assignSearchParams, assignSearchParams.rarity, h]
  · have hne : ¬ (RarityAncient = RarityPrimal) := by decide
    simp [assignSearchParams, assignSearchParams.rarity, h, hne]
  · simp [assignSearchParams, assignSearchParams.rarity, h1, h2]

/-- The three arms of C4 at concrete configurations; the last has a rarity value that is none
of the three constants. -/
theorem assignSearchParams_ancient_witness :
    assignSearchParams ⟨[DestinationSalvaged], RarityPrimal, QualityNormal, 1⟩
        = "/?item_destination=2&ancient=&item_quality=3&page=1" ∧
      assignSearchParams ⟨[DestinationSalvaged], RarityAncient, QualityNormal, 1⟩
        = "/?item_destination=2&ancient=1&item_quality=3&page=1" ∧
      assignSearchParams ⟨[DestinationSalvaged], RarityNonAncient, QualityNormal, 1⟩
        = "/?item_destination=2&ancient=0&item_quality=3&page=1" ∧
      assignSearchParams ⟨[DestinationSalvaged], "LEGENDARY", QualityNormal, 1⟩
        = "/?item_destination=2&ancient=0&item_quality=3&page=1" :=
  ⟨(assignSearchParams_ancient ⟨[DestinationSalvaged], RarityPrimal, QualityNormal, 1⟩).1 rfl,
    (assignSearchParams_ancient ⟨[DestinationSalvaged], RarityAncient, QualityNormal, 1⟩).2.1 rfl,
    (assignSearchParams_ancient ⟨[DestinationSalvaged], RarityNonAncient, QualityNormal, 1⟩).2.2
      (by decide) (by decide),
    (assignSearchParams_ancient ⟨[DestinationSalvaged], "LEGENDARY", QualityNormal, 1⟩).2.2
      (by decide) (by decide)⟩

/-- C5: the whole query string is `/?item_destination=D&ancient=A&item_quality=Q&page=P`, with `Q`
equal to `3` for `QualityNormal`, `4` for `QualitySet` and `All` for every other quality value,
and `P` the decimal rendering of `Page`; the configuration of the specification's example gives
the string it lists. -/
theorem assignSearchParams_format (config : ParserConfig) :
    assignSearchParams config =
        "/?item_destination=" ++ assignSearchParams.destination config ++
          "&ancient=" ++ assignSearchParams.rarity config ++
          "&item_quality=" ++
            (if config.Quality = QualityNormal then "3"
              else if config.Quality = QualitySet then "4" else "All") ++
          "&page=" ++ toString config.Page ∧
      assignSearchParams ⟨[DestinationSalvaged], RarityAncient, QualityNormal, 1⟩
        = "/?item_destination=2&ancient=1&item_quality=3&page=1" ∧
      assignSearchParams ⟨[DestinationSalvaged], RarityAncient, "RARE", -128⟩
        = "/?item_destination=2&ancient=1&item_quality=All&page=-128" := by
  refine ⟨?_, rfl, rfl⟩
  simp only [assignSearchParams, assignSearchParams.quality, beq_iff_eq]

/-- C6: when the first colon, white space, letter occurrence of the text carries the word `w`
(the whole run of letters), `parseDestination` returns Salvaged, Stashed or Sold when `w` is
`salvaged`, `stashed` or `sold` in any mix of upper and lower case, and Unknown for every other
word. -/
theorem parseDestination_first_word (pre : List Char) (ws : Char) (w rest : List Char)
    (hws : reSpace ws = true) (hw : w ≠ []) (hletters : ∀ c ∈ w, reLetter c = true)
    (hrest : ∀ c t, rest = c :: t → reLetter c = false)
    (hfirst : ∀ i, i < pre.length →
      colonSpaceLetterAt (pre ++ ':' :: ws :: (w ++ rest)) i = false) :
    parseDestination (String.mk (pre ++ ':' :: ws :: (w ++ rest))) =
      some (if w.map Char.toLower = "salvaged".data then DestinationSalvaged
        else if w.map Char.toLower = "stashed".data then DestinationStashed
        else if w.map Char.toLower = "sold".data then DestinationSold
        else DestinationUnknown) := by
  unfold parseDestination
  simp only [destinationRegex.FindStringSubmatch_skip pre _ hfirst,
    destinationRegex.FindStringSubmatch_word ws w rest hws hw hletters hrest,
    List.get?_cons_succ, List.get?_cons_zero, strings.ToLower_of_letters w hletters,
    string_mk_beq, decide_eq_true_eq]
  split_ifs <;> rfl

/-- C6 at `botname: SaLvAgEd item name`, `x:1 :\tSOLD`, and `botname: Test item name`. -/
theorem parseDestination_first_word_witness :
    parseDestination "botname: SaLvAgEd item name" = some DestinationSalvaged ∧
      parseDestination "x:1 :\tSOLD" = some DestinationSold ∧
      parseDestination "botname: Test item name" = some DestinationUnknown :=
  ⟨parseDestination_first_word "botname".data ' ' "SaLvAgEd".data " item name".data
      (by decide) (by decide) (by decide) (by intro c t h; cases h; decide) (by decide),
    parseDestination_first_word "x:1 ".data '\t' "SOLD".data [] (by decide) (by decide)
      (by decide) (by intro c t h; cases h) (by decide),
    parseDestination_first_word "botname".data ' ' "Test".data " item name".data
      (by decide) (by decide) (by decide) (by intro c t h; cases h; decide) (by decide)⟩

/-- C7: the text `DD/MM/YYYY - HH:MM` of a valid calendar date and time of day, written with
zero-padded fields, parses to exactly that year, month, day, hour and minute, with zero seconds
(the time is in UTC). -/
theorem parseTimestamp_valid (year month day hour minute : Nat) (hy : year ≤ 9999)
    (hv : validDateTime year month day hour minute = true) :
    parseTimestamp (String.mk (formatTimestamp year month day hour minute)) =
      { year := year, month := month, day := day, hour := hour, minute := minute,
        second := 0 } := by
  have hv2 := hv
  simp only [validDateTime, Bool.and_eq_true, decide_eq_true_eq] at hv2
  have hdm := daysInMonth_le year month
  have hday : day < 100 := by omega
  have hmonth : month < 100 := by omega
  have hhour : hour < 100 := by omega
  have hminute : minute < 100 := by omega
  have hyear : year < 10000 := by omega
  have hd : reDigit (Nat.digitChar (day / 10)) = true ∧ reDigit (Nat.digitChar (day % 10)) = true ∧
      reDigit (Nat.digitChar (month / 10)) = true ∧
      reDigit (Nat.digitChar (month % 10)) = true :=
    ⟨reDigit_digitChar _ (by omega), reDigit_digitChar _ (by omega),
      reDigit_digitChar _ (by omega), reDigit_digitChar _ (by omega)⟩
  have hyd : reDigit (Nat.digitChar (year / 1000)) = true ∧
      reDigit (Nat.digitChar (year / 100 % 10)) = true ∧
      reDigit (Nat.digitChar (year / 10 % 10)) = true ∧
      reDigit (Nat.digitChar (year % 10)) = true :=
    ⟨reDigit_digitChar _ (by omega), reDigit_digitChar _ (by omega),
      reDigit_digitChar _ (by omega), reDigit_digitChar _ (by omega)⟩
  have ht : reDigit (Nat.digitChar (hour / 10)) = true ∧
      reDigit (Nat.digitChar (hour % 10)) = true ∧
      reDigit (Nat.digitChar (minute / 10)) = true ∧
      reDigit (Nat.digitChar (minute % 10)) = true :=
    ⟨reDigit_digitChar _ (by omega), reDigit_digitChar _ (by omega),
      reDigit_digitChar _ (by omega), reDigit_digitChar _ (by omega)⟩
  have hshape : timestampShapeAt (formatTimestamp year month day hour minute) 0 = true := by
    simp [timestampShapeAt, formatTimestamp, pad2, pad4, isTimestampShape, hd, hyd, ht, reSpace]
  have hfind := timestampRegex.FindString_first _ 0 hshape (fun j hj => absurd hj (by omega))
  have e2 := decimalValue_pad2 day hday
  have e3 := decimalValue_pad2 month hmonth
  have e4 := decimalValue_pad2 hour hhour
  have e5 := decimalValue_pad2 minute hminute
  have e6 := decimalValue_pad4 year hyear
  simp only [pad2, pad4] at e2 e3 e4 e5 e6
  simp only [parseTimestamp, timestampRegex.FindString_TrimSpace, hfind]
  simp only [formatTimestamp, pad2, pad4, List.drop_zero, List.cons_append, List.nil_append,
    List.take_succ_cons, List.take_zero]
  rw [strings.ReplaceAll_shape _ _ _ _ _ _ _ _ _ _ _ _ _ _ hd hyd ht, if_pos rfl,
    time.Parse_shape _ _ _ _ _ _ _ _ _ _ _ _ hd hyd ht, e2, e3, e4, e5, e6, if_pos hv]

/-- C7 at the timestamp of the tests and at a leap day. -/
theorem parseTimestamp_valid_witness :
    parseTimestamp "05/10/2001 - 14:55"
        = { year := 2001, month := 10, day := 5, hour := 14, minute := 55, second := 0 } ∧
      parseTimestamp "29/02/2000 - 00:00"
        = { year := 2000, month := 2, day := 29, hour := 0, minute := 0, second := 0 } :=
  ⟨parseTimestamp_valid 2001 10 5 14 55 (by decide) (by decide),
    parseTimestamp_valid 2000 2 29 0 0 (by decide) (by decide)⟩

/-- C8: a text with no substring of the timestamp shape, and a text whose first substring of
that shape has fields that are not a valid calendar date and time, both give the zero time;
`parseTimestamp` is a total function, it has no failing outcome. -/
theorem parseTimestamp_zero (raw : String)
    (h : (∀ i, i < raw.data.length → timestampShapeAt raw.data i = false) ∨
      (∃ i, timestampShapeAt raw.data i = true ∧
        (∀ j, j < i → timestampShapeAt raw.data j = false) ∧
        timestampFieldsValidAt raw.data i = false)) :
    parseTimestamp raw = Time.zero := by
  simp only [parseTimestamp, timestampRegex.FindString_TrimSpace]
  rcases h with hnone | ⟨i, hi, hfirst, hinv⟩
  · rw [timestampRegex.FindString_none _ hnone]
    rfl
  · rw [timestampRegex.FindString_first _ i hi hfirst]
    unfold timestampShapeAt at hi
    obtain ⟨d1, d2, m1, m2, y1, y2, y3, y4, w1, w2, h1, h2, n1, n2, rest, heq, hd, hy, hw, ht⟩ :=
      (isTimestampShape_iff _).mp hi
    unfold timestampFieldsValidAt at hinv
    rw [heq] at hinv
    simp only at hinv
    rw [heq]
    simp only [List.take_succ_cons, List.take_zero]
    rw [strings.ReplaceAll_shape _ _ _ _ _ _ _ _ _ _ _ _ _ _ hd hy ht]
    by_cases hw1 : w1 = ' '
    · rw [if_pos hw1]
      by_cases hw2 : w2 = ' '
      · subst hw2
        rw [time.Parse_shape _ _ _ _ _ _ _ _ _ _ _ _ hd hy ht, hinv]
        rfl
      · rw [time.Parse_no_space _ _ _ _ _ _ _ _ _ _ hd hy hw2]
    · rw [if_neg hw1, time.Parse_no_space _ _ _ _ _ _ _ _ _ _ hd hy hw1]

/-- C8 at the two malformed texts of the tests, at a text with month 13, and at a text with
February 30. -/
theorem parseTimestamp_zero_witness :
    parseTimestamp "05/10/20 - 14:55" = Time.zero ∧
      parseTimestamp "05/10/20 - 14:55:50" = Time.zero ∧
      parseTimestamp "05/13/2001 - 14:55" = Time.zero ∧
      parseTimestamp "on 30/02/2001 - 14:55" = Time.zero :=
  ⟨parseTimestamp_zero "05/10/20 - 14:55" (Or.inl (by decide)),
    parseTimestamp_zero "05/10/20 - 14:55:50" (Or.inl (by decide)),
    parseTimestamp_zero "05/13/2001 - 14:55" (Or.inr ⟨0, by decide, by decide, by decide⟩),
    parseTimestamp_zero "on 30/02/2001 - 14:55"
      (Or.inr ⟨3, by decide, by decide, by decide⟩)⟩

/-- C9 (what the code does): the worker sets `IsIdentified` to the result of comparing the name
with `unidentified`, so the flag is true exactly when the name is that literal.  A fragment
whose span text is `unidentified` gets the flag true, and one whose span text is a real item
name gets it false. -/
theorem parseLegendaryItemWorker_IsIdentified :
    (∀ j item, parseLegendaryItemWorker.step j = WorkerStep.sent item →
        (item.IsIdentified = true ↔ item.Name = "unidentified")) ∧
      parseLegendaryItemWorker.step
          ⟨"", "text-legendary", "unidentified", "bot: Stashed unidentified"⟩
        = WorkerStep.sent
            { Name := "unidentified", Quality := QualityNormal, Rarity := RarityNonAncient,
              Destination := DestinationStashed, IsIdentified := true, Stats := "" } ∧
      parseLegendaryItemWorker.step
          ⟨"Armor<br />\n 736", "text-legendary", "tyrael's might",
            "bot: Salvaged tyrael's might"⟩
        = WorkerStep.sent
            { Name := "tyrael's might", Quality := QualityNormal, Rarity := RarityNonAncient,
              Destination := DestinationSalvaged, IsIdentified := false,
              Stats := "Armor\n736" } := by
  refine ⟨?_, by decide, by decide⟩
  intro j item h
  unfold parseLegendaryItemWorker.step at h
  simp only at h
  split at h
  · exact absurd h (by simp)
  · split at h
    · exact absurd h (by simp)
    · split at h
      · exact absurd h (by simp)
      · rename_i n _ d _
        have hitem := WorkerStep.sent.inj h
        rw [← hitem]
        simp

/-- C10: `parseItemQuality` returns Normal for a class equal to `text-legendary` up to letter
case, Set for one equal to `text-set` up to letter case, and the empty quality for every other
class, in which case the worker sends no item for the fragment; `Text-Rare` is such a class. -/
theorem parseItemQuality_spec (raw : String) :
    (raw.data.map Char.toLower = "text-legendary".data →
        parseItemQuality raw = QualityNormal) ∧
      (raw.data.map Char.toLower = "text-set".data → parseItemQuality raw = QualitySet) ∧
      (raw.data.map Char.toLower ≠ "text-legendary".data →
        raw.data.map Char.toLower ≠ "text-set".data →
          parseItemQuality raw = "" ∧
            ∀ j : Fragment, j.cls = raw →
              parseLegendaryItemWorker.step j = WorkerStep.dropped) ∧
      parseItemQuality "Text-Rare" = "" := by
  refine ⟨fun h => ?_, fun h => ?_, fun h1 h2 => ⟨?_, fun j hj => ?_⟩, by decide⟩
  · rw [parseItemQuality_eq, if_pos h]
  · have hne : raw.data.map Char.toLower ≠ "text-legendary".data := by
      rw [h]; decide
    rw [parseItemQuality_eq, if_neg hne, if_pos h]
  · rw [parseItemQuality_eq, if_neg h1, if_neg h2]
  · have hq : parseItemQuality j.cls = "" := by
      rw [hj, parseItemQuality_eq, if_neg h1, if_neg h2]
    simp [parseLegendaryItemWorker.step, hq]

/-- C10 at the classes of the tests and at a fragment of class `Text-Rare`. -/
theorem parseItemQuality_spec_witness :
    parseItemQuality "Text-Legendary" = QualityNormal ∧
      parseItemQuality "Text-Set" = QualitySet ∧
      parseItemQuality "Text-Rare" = "" ∧
      parseLegendaryItemWorker.step ⟨"", "Text-Rare", "some ring", "bot: Sold some ring"⟩
        = WorkerStep.dropped :=
  ⟨(parseItemQuality_spec "Text-Legendary").1 (by decide),
    (parseItemQuality_spec "Text-Set").2.1 (by decide),
    ((parseItemQuality_spec "Text-Rare").2.2.1 (by decide) (by decide)).1,
    ((parseItemQuality_spec "Text-Rare").2.2.1 (by decide) (by decide)).2 _ rfl⟩

/-- C11: `parseItemRarity` returns Ancient when the first bracketed run of letters of the text is
`ancient` in any letter case, Primal when it is `primal` in any letter case, and NonAncient when
the text has no bracketed run of letters or the first one is any other word. -/
theorem parseItemRarity_first_tag (raw : String) :
    ((∀ i, i < raw.data.length → bracketTagAt raw.data i = false) →
        parseItemRarity raw = RarityNonAncient) ∧
      (∀ pre w rest, raw.data = pre ++ '[' :: (w ++ ']' :: rest) → w ≠ [] →
        (∀ c ∈ w, reLetter c = true) →
        (∀ i, i < pre.length → bracketTagAt raw.data i = false) →
          parseItemRarity raw =
            if w.map Char.toLower = "ancient".data then RarityAncient
            else if w.map Char.toLower = "primal".data then RarityPrimal
            else RarityNonAncient) := by
  constructor
  · intro h
    have hfind := rarityRegex.FindString_no_tag raw.data h
    simp only [parseItemRarity, hfind]
    decide
  · intro pre w rest hraw hw hletters hfirst
    apply parseItemRarity_of_find raw w hletters
    rw [hraw] at hfirst ⊢
    rw [rarityRegex.FindString_skip pre _ hfirst, rarityRegex.FindString_tag w rest hw hletters]

/-- C11 at the texts of the tests, at a text whose first tag is another word, and at a tag in
mixed case that is not at the start. -/
theorem parseItemRarity_first_tag_witness :
    parseItemRarity "[Primal] name" = RarityPrimal ∧
      parseItemRarity "[Ancient] name" = RarityAncient ∧
      parseItemRarity "name" = RarityNonAncient ∧
      parseItemRarity "[Rare] [Ancient] name" = RarityNonAncient ∧
      parseItemRarity "a [1] [aNcIeNt] name" = RarityAncient :=
  ⟨(parseItemRarity_first_tag "[Primal] name").2 [] "Primal".data " name".data rfl
      (by decide) (by decide) (by decide),
    (parseItemRarity_first_tag "[Ancient] name").2 [] "Ancient".data " name".data rfl
      (by decide) (by decide) (by decide),
    (parseItemRarity_first_tag "name").1 (by decide),
    (parseItemRarity_first_tag "[Rare] [Ancient] name").2 [] "Rare".data
      " [Ancient] name".data rfl (by decide) (by decide) (by decide),
    (parseItemRarity_first_tag "a [1] [aNcIeNt] name").2 "a [1] ".data "aNcIeNt".data
      " name".data rfl (by decide) (by decide) (by decide)⟩

/-- C12 (what the code does): for a display name `n` with no `"] "` in it, the text `[Ancient] n`
or `[Primal] n`, with the rarity `parseItemRarity` gives for it, yields exactly `n`, and with
rarity NonAncient the text comes back unchanged; but the name is element 1 of the split at every
`"] "`, so a display name that itself holds `"] "` is cut at its first one: `[Ancient] a] b`
yields `a`. -/
theorem parseItemName_tagged :
    (∀ n : List Char, (∀ i, [']', ' '].isPrefixOf (n.drop i) = false) →
        parseItemName (String.mk ("[Ancient] ".data ++ n))
            (parseItemRarity (String.mk ("[Ancient] ".data ++ n))) = some (String.mk n) ∧
          parseItemName (String.mk ("[Primal] ".data ++ n))
            (parseItemRarity (String.mk ("[Primal] ".data ++ n))) = some (String.mk n)) ∧
      (∀ raw : String, parseItemName raw RarityNonAncient = some raw) ∧
      parseItemName "[Ancient] a] b" (parseItemRarity "[Ancient] a] b") = some "a" ∧
      parseItemName "[Primal] Ring] of Power" (parseItemRarity "[Primal] Ring] of Power")
        = some "Ring" := by
  refine ⟨fun n hn => ⟨?_, ?_⟩, fun raw => ?_, by decide, by decide⟩
  · have hr : parseItemRarity (String.mk ("[Ancient] ".data ++ n)) = RarityAncient := by
      have h := parseItemRarity_of_first_tag (String.mk ("[Ancient] ".data ++ n)) []
        "Ancient".data (' ' :: n) rfl (by decide) (by decide) (by simp)
      simpa using h
    have hs := strings.Split_tagged "Ancient".data n (by decide) hn
    rw [hr]
    unfold parseItemName
    rw [if_pos (by decide)]
    change (match (strings.Split ('[' :: ("Ancient".data ++ ']' :: ' ' :: n)) [']', ' ']).get? 1
      with
      | some name => some (String.mk name)
      | none => none) = some (String.mk n)
    rw [hs]
    rfl
  · have hr : parseItemRarity (String.mk ("[Primal] ".data ++ n)) = RarityPrimal := by
      have h := parseItemRarity_of_first_tag (String.mk ("[Primal] ".data ++ n)) []
        "Primal".data (' ' :: n) rfl (by decide) (by decide) (by simp)
      simpa using h
    have hs := strings.Split_tagged "Primal".data n (by decide) hn
    rw [hr]
    unfold parseItemName
    rw [if_pos (by decide)]
    change (match (strings.Split ('[' :: ("Primal".data ++ ']' :: ' ' :: n)) [']', ' ']).get? 1
      with
      | some name => some (String.mk name)
      | none => none) = some (String.mk n)
    rw [hs]
    rfl
  · rfl

/-- C13 (what the code does): each removal is one pass from the left, so the text around a removed
occurrence can close up into a new one.  `<br<br /> />` comes back as `<br />`, and because the
marker is removed after the sentence, a sentence with a marker inside it comes back as the
sentence. -/
theorem parseItemStats_leaves_marker :
    parseItemStats "<br<br /> />" = "<br />" ∧
      occursIn "<br />".data (parseItemStats "+5 Armor<br<br /> />\n +7 Life").data = true ∧
      parseItemStats "This item cannot be equipped until it is<br /> identified."
        = "This item cannot be equipped until it is identified." ∧
      occursIn "This item cannot be equipped until it is identified.".data
        (parseItemStats
          "This item cannot This item cannot be equipped until it is identified.be equipped until it is identified.").data
        = true := by
  refine ⟨by decide, by decide, by decide, by decide⟩

/-- C20: with the default configuration of `NewParseConfig`, `filterItems` returns every item list
unchanged. -/
theorem filterItems_default (legendaries : List LegendaryItem) :
    filterItems legendaries NewParseConfig = legendaries := by
  unfold filterItems
  rw [filter_eq_list_filter, List.filter_eq_self]
  intro item _
  have h1 : (RarityNonAncient == RarityAncient) = false := by decide
  have h2 : (RarityNonAncient == RarityPrimal) = false := by decide
  have h3 : (QualityAll != QualityAll) = false := by decide
  simp [filterItems.condition, NewParseConfig, h1, h2, h3]

/-- C19, as stated, fails: two updates with the same timestamp (the zero time of two blocks with
malformed timestamps) come back in the order in which they arrived, so two arrival orders of the
same updates give two different lists. -/
theorem Parse_collect_order_depends_on_arrival :
    ¬ (∀ a b : List ServerUpdate, a.Perm b → Parse.collect a = Parse.collect b) := by
  intro h
  have hswap := h
    [⟨[], Time.zero⟩, ⟨[⟨"ring", QualityNormal, RarityNonAncient, DestinationSold, false, ""⟩],
      Time.zero⟩]
    [⟨[⟨"ring", QualityNormal, RarityNonAncient, DestinationSold, false, ""⟩], Time.zero⟩,
      ⟨[], Time.zero⟩]
    (List.Perm.swap _ _ _)
  revert hswap
  decide

/-- C19, amended: for the same updates, when no two of them have the same timestamp, every
arrival order gives the same returned list, in the same order. -/
theorem Parse_collect_deterministic (a b : List ServerUpdate) (hperm : a.Perm b)
    (hdistinct : (a.map (fun u => u.ServerTimestamp.abs)).Nodup) :
    Parse.collect a = Parse.collect b := by
  have h := sort.Slice_eq_of_perm (fun u : ServerUpdate => u.ServerTimestamp.abs) a b hperm
    hdistinct
  exact h

/-- C19, amended, at two updates of different days in their two arrival orders. -/
theorem Parse_collect_deterministic_witness :
    Parse.collect [⟨[], ⟨2001, 10, 5, 14, 55, 0⟩⟩, ⟨[], ⟨2001, 10, 4, 9, 30, 0⟩⟩]
      = Parse.collect [⟨[], ⟨2001, 10, 4, 9, 30, 0⟩⟩, ⟨[], ⟨2001, 10, 5, 14, 55, 0⟩⟩] :=
  Parse_collect_deterministic _ _ (List.Perm.swap _ _ _) (by decide)

/-- C14 (what the code does): when the feed request gets a status other than 200 and the
re-authentication fails with error `e`, `GetActivity` does not return an error: it panics with
the message `error refreshing cookies: e`.  So it does at a 403 answer followed by a failing
transport. -/
theorem GetActivity_refresh_failure_panics :
    (∀ (s : httpService) (searchSegment : String) (urlError : String → Option Error)
        (w w1 w2 : World) (res : Response) (e : Error),
        urlError (s.endpoints.Activity ++ searchSegment) = none →
        w.Do { Method := "GET", URL := s.endpoints.Activity ++ searchSegment, Form := [] }
          = (Except.ok res, w1) →
        res.StatusCode ≠ 200 →
        postForm s w1 = (Except.error e, w2) →
        (GetActivity s searchSegment urlError w).outcome
          = GetActivity.Outcome.panicked (ErrCookiesRefresh ++ ": " ++ e)) ∧
      (GetActivity samples.service "/?page=1" (fun _ => none)
          { replies := [samples.expired, Except.error "connection refused"],
            sent := [] }).outcome
        = GetActivity.Outcome.panicked "error refreshing cookies: connection refused" := by
  refine ⟨?_, rfl⟩
  intro s searchSegment urlError w w1 w2 res e hurl hdo hstatus hpost
  have hne : (res.StatusCode != 200) = true := by
    simpa using hstatus
  simp only [GetActivity, hurl, hdo, hne, if_true, hpost]

/-- C15 (what the code does): when the feed request gets a status other than 200 and the
re-authentication succeeds, `GetActivity` sends no second feed request: it returns the body of
the first response, and the world is the one `postForm` left.  At a 403 answer followed by a
successful login the requests sent are the feed request, the login page request and the login
post, and the fresh feed page the server would have given next is never asked for. -/
theorem GetActivity_returns_first_body :
    (∀ (s : httpService) (searchSegment : String) (urlError : String → Option Error)
        (w w1 w2 : World) (res : Response) (fresh : Body),
        urlError (s.endpoints.Activity ++ searchSegment) = none →
        w.Do { Method := "GET", URL := s.endpoints.Activity ++ searchSegment, Form := [] }
          = (Except.ok res, w1) →
        res.StatusCode ≠ 200 →
        postForm s w1 = (Except.ok fresh, w2) →
        (GetActivity s searchSegment urlError w).outcome
            = GetActivity.Outcome.returned res.Body ∧
          (GetActivity s searchSegment urlError w).world = w2) ∧
      (GetActivity samples.service "/?page=1" (fun _ => none)
          { replies := [samples.expired, samples.login, samples.landing, samples.feed],
            sent := [] }).outcome
        = GetActivity.Outcome.returned samples.expiredBody ∧
      (GetActivity samples.service "/?page=1" (fun _ => none)
          { replies := [samples.expired, samples.login, samples.landing, samples.feed],
            sent := [] }).world.sent.map (fun q => (q.Method, q.URL))
        = [("GET", "https://www.ros-bot.com/user/1234567/bot-activity/?page=1"),
            ("GET", "https://www.ros-bot.com/user/login"),
            ("POST", "https://www.ros-bot.com/user/login")] ∧
      (GetActivity samples.service "/?page=1" (fun _ => none)
          { replies := [samples.expired, samples.login, samples.landing, samples.feed],
            sent := [] }).world.replies.length = 1 := by
  refine ⟨?_, rfl, rfl, rfl⟩
  intro s searchSegment urlError w w1 w2 res fresh hurl hdo hstatus hpost
  have hne : (res.StatusCode != 200) = true := by
    simpa using hstatus
  simp only [GetActivity, hurl, hdo, hne, if_true, hpost, and_self]

/-- C16, as stated, fails: `Authenticate` appends the path it finds to the endpoint, so a second
successful call on the same service changes the field.  After `newHTTPService` the endpoint is
the base URL followed by the path; after one more successful `Authenticate` it holds the path
twice. -/
theorem Authenticate_twice_appends_twice :
    ∃ s1 s2 w1 w2,
      newHTTPService "user" "pass" { replies := [samples.login, samples.landing], sent := [] }
          = (Except.ok s1, w1) ∧
        s1.endpoints.Activity = baseURL ++ "/user/1234567/bot-activity" ∧
        Authenticate s1 { replies := [samples.login, samples.landing], sent := [] }
          = (Except.ok s2, w2) ∧
        s2.endpoints.Activity
          = baseURL ++ "/user/1234567/bot-activity" ++ "/user/1234567/bot-activity" ∧
        s2.endpoints.Activity ≠ baseURL ++ "/user/1234567/bot-activity" := by
  refine ⟨_, _, _, _, rfl, rfl, rfl, rfl, by decide⟩

/-- C16, amended: when the `Authenticate` call of `newHTTPService` succeeds with the path `p` it
found on the landing page, the activity endpoint is the base URL followed by `p` (and the login
endpoint is the login address), and every later `GetActivity` call, with the re-authentication
it runs through `postForm` on a status other than 200, leaves the service, so the endpoint,
unchanged. -/
theorem endpoints_fixed_after_login (usernameOrEmail password : String) (w w1 : World)
    (s : httpService) (h : newHTTPService usernameOrEmail password w = (Except.ok s, w1)) :
    (∃ p body,
        (postForm
            { credentials := { UsernameOrEmail := usernameOrEmail, Password := password }
              endpoints := { Login := baseURL ++ loginEndpoint, Activity := baseURL } } w).1
          = Except.ok body ∧
        parseActivityEndpoint body = Except.ok p ∧
        s.endpoints.Activity = baseURL ++ p ∧
        s.endpoints.Login = baseURL ++ loginEndpoint) ∧
      ∀ (searchSegment : String) (urlError : String → Option Error) (w2 : World),
        (GetActivity s searchSegment urlError w2).service = s ∧
          (GetActivity s searchSegment urlError w2).service.endpoints.Activity
            = s.endpoints.Activity := by
  constructor
  · unfold newHTTPService Authenticate at h
    split at h
    · exact absurd (Prod.mk.inj h).1 (by simp)
    · rename_i body w0 hpost
      split at h
      · exact absurd (Prod.mk.inj h).1 (by simp)
      · rename_i p hp
        have hs := Except.ok.inj (Prod.mk.inj h).1
        refine ⟨p, body, ?_, hp, ?_, ?_⟩
        · rw [hpost]
        · rw [← hs]
        · rw [← hs]
  · intro searchSegment urlError w2
    have hsvc : (GetActivity s searchSegment urlError w2).service = s := by
      unfold GetActivity
      split
      · rfl
      · split
        · rfl
        · split
          · split <;> rfl
          · rfl
    exact ⟨hsvc, by rw [hsvc]⟩

/-- C16, amended, at a login that lands on a page with the activity link, followed by a feed
request that gets a 403 answer and a successful re-authentication. -/
theorem endpoints_fixed_after_login_witness :
    (GetActivity samples.service "/?page=1" (fun _ => none)
        { replies := [samples.expired, samples.login, samples.landing],
          sent := [] }).service.endpoints.Activity
      = "https://www.ros-bot.com/user/1234567/bot-activity" :=
  ((endpoints_fixed_after_login "user" "pass"
      { replies := [samples.login, samples.landing], sent := [] }
      _ samples.service rfl).2 "/?page=1" (fun _ => none) _).2

/-- C17 (what the code does): in every state a `parseUpdate` task can reach, under every schedule
of its steps, `itemsChan` is still open and the task is at or before its `range` over that
channel: the only `close(itemsChan)` stands after the loop that waits for it.  So no task
reaches its `wg.Done()`, and for a document with at least one update block `wg.Wait()` is never
over, under any schedule: `Parse` does not return.  Only for a document with no block does it
return (the empty list). -/
theorem Parse_never_returns_with_a_block (s : UpdateBlock) (blocks : List UpdateBlock)
    (config : ParserConfig) :
    (∀ schedule : List parseUpdate.Action,
        (parseUpdate.run (parseUpdate.init s) schedule).itemsClosed = false ∧
          (parseUpdate.run (parseUpdate.init s) schedule).pc ≠ parseUpdate.Pc.closing ∧
          (parseUpdate.run (parseUpdate.init s) schedule).pc ≠ parseUpdate.Pc.delivering ∧
          (parseUpdate.run (parseUpdate.init s) schedule).pc ≠ parseUpdate.Pc.done) ∧
      (∀ schedule : List (Nat × parseUpdate.Action),
        Parse.result (s :: blocks) config schedule = none) ∧
      (∀ schedule : List (Nat × parseUpdate.Action),
        Parse.result [] config schedule = some []) := by
  have hstart : (Parse.start (s :: blocks)).tasks ≠ [] ∧
      ∀ t ∈ (Parse.start (s :: blocks)).tasks, t.2.beforeClose := by
    constructor
    · simp [Parse.start]
    · intro t ht
      simp only [Parse.start, List.mem_map] at ht
      obtain ⟨b, _, hb⟩ := ht
      rw [← hb]
      exact parseUpdate.init_beforeClose b
  refine ⟨fun schedule => ?_, fun schedule => ?_, fun schedule => ?_⟩
  · have h := parseUpdate.run_beforeClose _ schedule (parseUpdate.init_beforeClose s)
    exact ⟨h.1, parseUpdate.beforeClose_not_done _ h⟩
  · unfold Parse.result
    simp only [Parse.waitOver_false _ (Parse.run_tasks config _ schedule hstart)]
    rfl
  · unfold Parse.result
    rw [Parse.run_no_tasks]
    rfl

/-- C18, as stated, fails: for the block with the one legendary fragment "tyrael's might" and the
configuration that asks for quality Set, the task collects the fragment's item, and the update
it builds from what it collected has no item, while the block has one fragment of quality
Normal or Set. -/
theorem parseUpdate_update_drops_filtered_item :
    (parseUpdate.run (parseUpdate.init samples.block) samples.collected).pc
        = parseUpdate.Pc.ranging ∧
      (parseUpdate.run (parseUpdate.init samples.block) samples.collected).held = [] ∧
      (parseUpdate.run (parseUpdate.init samples.block) samples.collected).itemsChan = [] ∧
      (parseUpdate.run (parseUpdate.init samples.block) samples.collected).legendaryItems.length
        = 1 ∧
      (samples.block.items.filter isLegendaryOrSet).length = 1 ∧
      (parseUpdate.update samples.block samples.setOnly
        (parseUpdate.run (parseUpdate.init samples.block)
          samples.collected).legendaryItems).Items.length = 0 := by
  decide

/-- C18, amended: for every update block, every configuration and every schedule of the block's
task, once the task is in its loop over `itemsChan` with every job worked off and the channel
empty (it has collected the items of all the block's fragments), no worker has panicked, and the
update of lines 98-101 carries the block's timestamp and as many items as the block has
fragments of quality Normal or Set whose item passes the filter of the configuration; with the
default configuration that is the number of the block's fragments of quality Normal or Set.  The
list `Parse` builds from the updates that arrived has as many updates as arrived. -/
theorem parseUpdate_update_item_count (s : UpdateBlock) (config : ParserConfig)
    (schedule : List parseUpdate.Action)
    (hpc : (parseUpdate.run (parseUpdate.init s) schedule).pc = parseUpdate.Pc.ranging)
    (hheld : (parseUpdate.run (parseUpdate.init s) schedule).held = [])
    (hchan : (parseUpdate.run (parseUpdate.init s) schedule).itemsChan = []) :
    (parseUpdate.run (parseUpdate.init s) schedule).panicked = false ∧
      (parseUpdate.update s config
        (parseUpdate.run (parseUpdate.init s) schedule).legendaryItems).ServerTimestamp
          = parseTimestamp s.date ∧
      (parseUpdate.update s config
        (parseUpdate.run (parseUpdate.init s) schedule).legendaryItems).Items.length
          = (s.items.filter (fun j => isLegendaryOrSet j && passesFilter config j)).length ∧
      (parseUpdate.update s NewParseConfig
        (parseUpdate.run (parseUpdate.init s) schedule).legendaryItems).Items.length
          = (s.items.filter isLegendaryOrSet).length ∧
      ∀ arrived : List ServerUpdate, (Parse.collect arrived).length = arrived.length := by
  have hperm := parseUpdate.collected_perm s schedule hpc hheld hchan
  refine ⟨parseUpdate.collected_alive s schedule hheld, rfl, ?_, ?_,
    fun arrived => (sort.Slice_perm _ arrived).length_eq⟩
  · show (filterItems _ config).length = _
    unfold filterItems
    rw [filter_eq_list_filter, (hperm.filter _).length_eq,
      parseUpdate.records_filter_length]
  · show (filterItems _ NewParseConfig).length = _
    unfold filterItems
    rw [filter_eq_list_filter, List.filter_eq_self.mpr
        (fun item _ => filterItems.condition_default item), hperm.length_eq,
      parseUpdate.records_length s.items
        (parseUpdate.collected_no_panics s schedule hpc hheld)]

/-- C18, amended, at the block with the one legendary fragment "tyrael's might", the
configuration that asks for quality Set and the schedule that collects the fragment's item. -/
theorem parseUpdate_update_item_count_witness :
    (parseUpdate.run (parseUpdate.init samples.block) samples.collected).panicked = false ∧
      (parseUpdate.update samples.block samples.setOnly
        (parseUpdate.run (parseUpdate.init samples.block)
          samples.collected).legendaryItems).Items.length
          = (samples.block.items.filter
              (fun j => isLegendaryOrSet j && passesFilter samples.setOnly j)).length ∧
      (parseUpdate.update samples.block NewParseConfig
        (parseUpdate.run (parseUpdate.init samples.block)
          samples.collected).legendaryItems).Items.length
          = (samples.block.items.filter isLegendaryOrSet).length :=
  have h := parseUpdate_update_item_count samples.block samples.setOnly samples.collected
    (by decide) (by decide) (by decide)
  ⟨h.1, h.2.2.1, h.2.2.2.1⟩

/-- C21: for every item list and every configuration, with only `RarityLevel` changed, the items
`filterItems` keeps under Primal are among those it keeps under Ancient, and the items it keeps
under Ancient are among those it keeps under NonAncient, each in the same order (a sublist), so
every item kept at the higher level is kept at the lower one. -/
theorem filterItems_rarity_floor (legendaries : List LegendaryItem) (config : ParserConfig) :
    (filterItems legendaries { config with RarityLevel := RarityPrimal }).Sublist
        (filterItems legendaries { config with RarityLevel := RarityAncient }) ∧
      (filterItems legendaries { config with RarityLevel := RarityAncient }).Sublist
        (filterItems legendaries { config with RarityLevel := RarityNonAncient }) ∧
      (∀ item, item ∈ filterItems legendaries { config with RarityLevel := RarityPrimal } →
        item ∈ filterItems legendaries { config with RarityLevel := RarityAncient }) ∧
      (∀ item, item ∈ filterItems legendaries { config with RarityLevel := RarityAncient } →
        item ∈ filterItems legendaries { config with RarityLevel := RarityNonAncient }) := by
  have h1 : (filterItems legendaries { config with RarityLevel := RarityPrimal }).Sublist
      (filterItems legendaries { config with RarityLevel := RarityAncient }) := by
    unfold filterItems
    rw [filter_eq_list_filter, filter_eq_list_filter]
    exact filter_sublist_filter _ _ legendaries
      (filterItems.condition_primal_ancient config)
  have h2 : (filterItems legendaries { config with RarityLevel := RarityAncient }).Sublist
      (filterItems legendaries { config with RarityLevel := RarityNonAncient }) := by
    unfold filterItems
    rw [filter_eq_list_filter, filter_eq_list_filter]
    exact filter_sublist_filter _ _ legendaries
      (filterItems.condition_ancient_nonAncient config)
  exact ⟨h1, h2, fun item hi => h1.subset hi, fun item hi => h2.subset hi⟩

/-- C22 (what the code does): `parseDestination` indexes element 1 of what
`FindStringSubmatch` returns without looking at it, so it panics exactly when no position of the
text starts a colon, white space, letter occurrence; whenever it returns, the result is one of
the four destinations.  It panics on the empty text, on a text without a colon, on a colon
followed directly by the word or by a digit, and the worker panics with it on a fragment whose
text has no such occurrence. -/
theorem parseDestination_panics_without_pattern :
    (∀ raw : String,
        parseDestination raw = none ↔ ∀ i, colonSpaceLetterAt raw.data i = false) ∧
      (∀ (raw : String) (d : Destination), parseDestination raw = some d →
        d = DestinationSalvaged ∨ d = DestinationStashed ∨ d = DestinationSold ∨
          d = DestinationUnknown) ∧
      parseDestination "" = none ∧
      parseDestination "botname salvaged item name" = none ∧
      parseDestination "botname:Sold item name" = none ∧
      parseDestination "botname: 2 items" = none ∧
      parseLegendaryItemWorker.step
          ⟨"", "text-legendary", "tyrael's might", "botname salvaged tyrael's might"⟩
        = WorkerStep.panicked :=
  ⟨parseDestination_eq_none_iff, parseDestination_range, by decide, by decide, by decide,
    by decide, by decide⟩

/-- C23 (what the code does): the `item_destination` value is `1`, `2`, `4`, `All` or the empty
string, and it is the empty string exactly when the configuration has a single destination
other than Stashed, Salvaged and Sold: the `switch` over that destination has no `default` arm.
So for the single destination Unknown the query string starts with `/?item_destination=&`. -/
theorem assignSearchParams_destination_values :
    (∀ config : ParserConfig,
        assignSearchParams.destination config = "1" ∨
          assignSearchParams.destination config = "2" ∨
          assignSearchParams.destination config = "4" ∨
          assignSearchParams.destination config = "All" ∨
          assignSearchParams.destination config = "") ∧
      (∀ config : ParserConfig,
        assignSearchParams.destination config = "" ↔
          ∃ d, config.Destinations = [d] ∧ d ≠ DestinationStashed ∧
            d ≠ DestinationSalvaged ∧ d ≠ DestinationSold) ∧
      assignSearchParams.destination ⟨[DestinationUnknown], RarityNonAncient, QualityAll, 1⟩
        = "" ∧
      assignSearchParams ⟨[DestinationUnknown], RarityNonAncient, QualityAll, 1⟩
        = "/?item_destination=&ancient=0&item_quality=All&page=1" := by
  refine ⟨fun config => ?_, fun config => ?_, rfl, rfl⟩
  · unfold assignSearchParams.destination
    split
    · split_ifs
      · exact Or.inl rfl
      · exact Or.inr (Or.inl rfl)
      · exact Or.inr (Or.inr (Or.inl rfl))
      · exact Or.inr (Or.inr (Or.inr (Or.inr rfl)))
    · exact Or.inr (Or.inr (Or.inr (Or.inl rfl)))
  · unfold assignSearchParams.destination
    split
    · rename_i d hd
      rw [hd]
      by_cases h1 : d = DestinationStashed
      · simp [h1]
      · by_cases h2 : d = DestinationSalvaged
        · simp [h2]
          decide
        · by_cases h3 : d = DestinationSold
          · simp [h3]
            decide
          · simp [h1, h2, h3]
    · rename_i hnot
      constructor
      · intro h
        exact absurd h (by decide)
      · rintro ⟨d, hd, _⟩
        exact absurd hd (hnot d)

/-- C24, as stated, fails: the class of the documented fragment, `text-LegendaryItem`, lower-cases
to `text-legendaryitem`, which is neither `text-legendary` nor `text-set`; `parseItemQuality`
gives the empty quality for it and the worker drops the fragment without sending a record. -/
theorem parseLegendaryItemWorker_drops_documented_fragment :
    samples.documented.cls = "text-LegendaryItem" ∧
      parseItemQuality samples.documented.cls = "" ∧
      parseLegendaryItemWorker.step samples.documented = WorkerStep.dropped := by
  decide

/-- C24, amended: a fragment whose span has a class equal to `text-legendary` up to letter case
gets the quality Normal and the worker never drops it.  The worker sends a record for it exactly
when the name and the destination can be read: the trimmed span text has a `"] "` or has the
rarity NonAncient, and the paragraph text has a colon, white space, letter occurrence; in every
other case the worker panics.  The record sent has quality Normal, the rarity, name and
destination parsed from the span text and the paragraph text, the stats parsed from the
`data-content` attribute, and `IsIdentified` as the worker computes it. -/
theorem parseLegendaryItemWorker_keeps_text_legendary (j : Fragment)
    (h : j.cls.data.map Char.toLower = "text-legendary".data) :
    parseItemQuality j.cls = QualityNormal ∧
      parseLegendaryItemWorker.step j ≠ WorkerStep.dropped ∧
      ((∃ item, parseLegendaryItemWorker.step j = WorkerStep.sent item) ↔
        (parseItemRarity (String.mk (strings.TrimSpace j.spanText.data)) = RarityNonAncient ∨
            ∃ i, [']', ' '].isPrefixOf
              ((String.mk (strings.TrimSpace j.spanText.data)).data.drop i) = true) ∧
          ∃ i, colonSpaceLetterAt j.text.data i = true) ∧
      (parseLegendaryItemWorker.step j = WorkerStep.panicked ↔
        ¬ ((parseItemRarity (String.mk (strings.TrimSpace j.spanText.data)) = RarityNonAncient ∨
            ∃ i, [']', ' '].isPrefixOf
              ((String.mk (strings.TrimSpace j.spanText.data)).data.drop i) = true) ∧
          ∃ i, colonSpaceLetterAt j.text.data i = true)) ∧
      ∀ item, parseLegendaryItemWorker.step j = WorkerStep.sent item →
        item.Quality = QualityNormal ∧
          item.Rarity = parseItemRarity (String.mk (strings.TrimSpace j.spanText.data)) ∧
          parseItemName (String.mk (strings.TrimSpace j.spanText.data))
            (parseItemRarity (String.mk (strings.TrimSpace j.spanText.data)))
              = some item.Name ∧
          parseDestination j.text = some item.Destination ∧
          item.Stats = parseItemStats j.content ∧
          item.IsIdentified = (item.Name == "unidentified") := by
  have hq : parseItemQuality j.cls = QualityNormal := by
    rw [parseItemQuality_eq, if_pos h]
  have hne : (parseItemQuality j.cls == "") = false := by
    rw [hq]; decide
  have hstep := parseLegendaryItemWorker.step_of_quality j hne
  have hname := parseItemName_isSome_iff (String.mk (strings.TrimSpace j.spanText.data))
    (parseItemRarity (String.mk (strings.TrimSpace j.spanText.data)))
  have hdest := parseDestination_isSome_iff j.text
  rw [← hname, ← hdest]
  refine ⟨hq, ?_, ?_, ?_, ?_⟩
  · rw [hstep]
    split
    · simp
    · split <;> simp
  · rw [hstep]
    cases hn : parseItemName (String.mk (strings.TrimSpace j.spanText.data))
        (parseItemRarity (String.mk (strings.TrimSpace j.spanText.data))) with
    | none => simp
    | some n =>
      cases hd : parseDestination j.text with
      | none => simp
      | some d => simp
  · rw [hstep]
    cases hn : parseItemName (String.mk (strings.TrimSpace j.spanText.data))
        (parseItemRarity (String.mk (strings.TrimSpace j.spanText.data))) with
    | none => simp
    | some n =>
      cases hd : parseDestination j.text with
      | none => simp
      | some d => simp
  · intro item hs
    rw [hstep] at hs
    cases hn : parseItemName (String.mk (strings.TrimSpace j.spanText.data))
        (parseItemRarity (String.mk (strings.TrimSpace j.spanText.data))) with
    | none =>
      rw [hn] at hs
      exact absurd hs (by simp)
    | some n =>
      rw [hn] at hs
      cases hd : parseDestination j.text with
      | none =>
        rw [hd] at hs
        exact absurd hs (by simp)
      | some d =>
        rw [hd] at hs
        have hitem := WorkerStep.sent.inj hs
        rw [← hitem]
        exact ⟨hq, rfl, rfl, rfl, rfl, rfl⟩

/-- C24, amended, at the documented fragment with the class `text-legendary` in place of
`text-LegendaryItem`: its span text has the rarity NonAncient and its paragraph text has `: S`
at position 19, so the worker sends a record, the record of "tyrael's might", salvaged, of
quality Normal. -/
theorem parseLegendaryItemWorker_keeps_text_legendary_witness :
    parseItemQuality "text-legendary" = QualityNormal ∧
      parseLegendaryItemWorker.step { samples.documented with cls := "text-legendary" }
        ≠ WorkerStep.dropped ∧
      (∃ item,
        parseLegendaryItemWorker.step { samples.documented with cls := "text-legendary" }
          = WorkerStep.sent item) ∧
      ∃ item,
        parseLegendaryItemWorker.step { samples.documented with cls := "text-legendary" }
          = WorkerStep.sent item ∧
        item.Name = "tyrael's might" ∧ item.Quality = QualityNormal ∧
        item.Rarity = RarityNonAncient ∧ item.Destination = DestinationSalvaged ∧
        item.IsIdentified = false :=
  have h := parseLegendaryItemWorker_keeps_text_legendary
    { samples.documented with cls := "text-legendary" } (by decide)
  ⟨h.1, h.2.1, h.2.2.1.mpr ⟨Or.inl (by decide), ⟨19, by decide⟩⟩,
    _, rfl, by decide, by decide, by decide, by decide, by decide⟩

/-- C25 (what the code does): `parseItemName` takes element 1 of the split at `"] "` without
looking at the length, so with the rarity `parseItemRarity` found it panics exactly when that
rarity is Ancient or Primal and the text has no `"] "`.  The rarity pattern asks for the closing
bracket only, not for the space after it, so `[Ancient]` and `[Primal]Ring` have the rarity and
no part to index, and the worker panics on a fragment whose span text is `[Ancient]`. -/
theorem parseItemName_panics_without_separator :
    (∀ raw : String,
        parseItemName raw (parseItemRarity raw) = none ↔
          parseItemRarity raw ≠ RarityNonAncient ∧
            ∀ i, [']', ' '].isPrefixOf (raw.data.drop i) = false) ∧
      parseItemRarity "[Ancient]" = RarityAncient ∧
      parseItemName "[Ancient]" (parseItemRarity "[Ancient]") = none ∧
      parseItemRarity "[Primal]Ring" = RarityPrimal ∧
      parseItemName "[Primal]Ring" (parseItemRarity "[Primal]Ring") = none ∧
      parseLegendaryItemWorker.step
          ⟨"", "text-legendary", " [Ancient] ", "botname: Stashed [Ancient]"⟩
        = WorkerStep.panicked :=
  ⟨fun raw => parseItemName_eq_none_iff raw (parseItemRarity raw), by decide, by decide,
    by decide, by decide, by decide⟩

/-- C26: for every item list and every configuration, the result of `filterItems` is a sublist of
the input (the kept items in their order, none added), no item occurs in it more often than in
the input, and filtering the result again with the same configuration gives it back
unchanged. -/
theorem filterItems_sublist_idempotent (legendaries : List LegendaryItem)
    (config : ParserConfig) :
    (filterItems legendaries config).Sublist legendaries ∧
      (∀ item, item ∈ filterItems legendaries config → item ∈ legendaries) ∧
      (∀ item, (filterItems legendaries config).count item ≤ legendaries.count item) ∧
      filterItems (filterItems legendaries config) config = filterItems legendaries config := by
  have hsub : (filterItems legendaries config).Sublist legendaries := by
    unfold filterItems
    rw [filter_eq_list_filter]
    exact List.filter_sublist legendaries
  refine ⟨hsub, fun item hi => hsub.subset hi, fun item => hsub.count_le item, ?_⟩
  unfold filterItems
  rw [filter_eq_list_filter, filter_eq_list_filter, List.filter_eq_self]
  intro item hi
  exact (List.mem_filter.mp hi).2

end Rosbotcollector
